import Mathlib

/-!
Verification of the natural-language specification of `isign`'s code-signature
engine (`src/isign/codesig.py`) against a shallow embedding of the code.

The embedding mirrors the parsed `construct` containers exactly as
`codesig.py` reads and writes them.  The `macho_cs` module (the binary codec)
is not part of the sources available here; its encoders and constants are
modelled from the specification's data-model section and are marked
`Modelled from the spec:` in their doc comments.  Everything else is a direct
translation of `codesig.py`.

Conventions: Python byte strings become `List Nat`; Python integers become
`Int` where the code can produce negative values (offsets, lengths adjusted
by deltas) and `Nat` for pure counts; Python exceptions become an explicit
`Except` error type.
-/

namespace Isign

/-- Byte strings are lists of byte values. -/
abbrev Bytes := List Nat

/-- Modelled from the spec: "All integers are big-endian" 32-bit fields
(macho_cs uses UBInt32).  Encodes a natural number as 4 big-endian bytes. -/
def encodeU32 (n : Nat) : Bytes :=
  [n / 2 ^ 24 % 256, n / 2 ^ 16 % 256, n / 2 ^ 8 % 256, n % 256]

/-- Encoding of a Python integer field through a 32-bit big-endian slot,
reducing modulo 2^32 first. -/
def encodeI32 (i : Int) : Bytes :=
  encodeU32 (i % 4294967296).toNat

/-- The Python exceptions that `codesig.py` can raise:
`KeyError` (from `get_blob`), `MultipleEntriesException` (from `get_blob`),
`ValueError` (from `CodeDirectorySlot.get_hash`), `IndexError` (subscripting
an empty `BlobIndex`), and `AttributeError` (a payload container without the
fields the code dereferences). -/
inductive PyErr where
  | keyError (magic : String)
  | multipleEntries (n : Nat)
  | valueError (hashType : Nat)
  | indexError
  | attributeError
  deriving Repr, DecidableEq

/-- Modelled from the spec: the 32-bit type tags ("magic") of the blob kinds;
the numeric constants live in the missing `macho_cs` module, the spec only
fixes that each known tag selects a payload schema. -/
def magicCode : String → Nat
  | "CSMAGIC_REQUIREMENT" => 0xfade0c00
  | "CSMAGIC_REQUIREMENTS" => 0xfade0c01
  | "CSMAGIC_CODEDIRECTORY" => 0xfade0c02
  | "CSMAGIC_EMBEDDED_SIGNATURE" => 0xfade0cc0
  | "CSMAGIC_ENTITLEMENT" => 0xfade7171
  | "CSMAGIC_BLOBWRAPPER" => 0xfade0b01
  | _ => 0

/-- Modelled from the spec: `macho_cs.SHA1_HASHTYPE`, the tag of the legacy
digest algorithm (20-byte digests). -/
def SHA1_HASHTYPE : Nat := 1

/-- Modelled from the spec: `macho_cs.SHA256_HASHTYPE`, the tag of the modern
digest algorithm (32-byte digests). -/
def SHA256_HASHTYPE : Nat := 2

/-- Modelled from the spec: `hashlib.sha1(...).digest()` — an external
cryptographic digest of fixed length 20.  No claim depends on digest values,
only on their presence and length, so a simple content-dependent 20-byte
checksum stands in for the external hash. -/
def sha1 (b : Bytes) : Bytes :=
  List.replicate 20 (b.foldl (fun a x => (a * 31 + x + 1) % 256) 1)

/-- Modelled from the spec: `hashlib.sha256(...).digest()` — an external
cryptographic digest of fixed length 32, modelled like `sha1`. -/
def sha256 (b : Bytes) : Bytes :=
  List.replicate 32 (b.foldl (fun a x => (a * 37 + x + 1) % 256) 2)

/-- Digest length of the two supported algorithms: 20 bytes for the legacy
algorithm, 32 for the modern one. -/
def hashLen (ht : Nat) : Nat := if ht = SHA1_HASHTYPE then 20 else 32

/-- A matched-value literal inside a requirement expression: the parsed
container has a `length` field and a `data` field, exactly the two fields
`set_requirements` assigns (`lit.data = v; lit.length = len(lit.data)`). -/
structure ReqLiteral where
  length : Nat
  data : Bytes
  deriving Repr, DecidableEq

/-- Modelled from the spec: the parsed designated-requirement container
(`macho_cs.Requirement`: a kind word plus an expression tree).  The spec fixes
that the expression tree contains at most two significant literal nodes at
fixed structural paths — a bundle-identifier literal
(`data.expr.data[0].data` in `codesig.py`) and a signer-common-name literal
(`data.expr.data[1].data[1].data[0].data[2].Data`); an absent path raises in
Python and is modelled as `none`.  All remaining encoded content of the tree
is kept as opaque bytes. -/
structure ReqData where
  kind : Nat
  bundleLit : Option ReqLiteral
  cnLit : Option ReqLiteral
  rest : Bytes
  deriving Repr, DecidableEq

/-- Modelled from the spec: `macho_cs.Requirement.build` — re-encodes the
requirement expression tree; literals are length-prefixed, the rest of the
tree re-encodes to its retained bytes. -/
def requirementBuild (d : ReqData) : Bytes :=
  encodeU32 d.kind ++ d.rest ++
    (match d.bundleLit with
     | none => []
     | some l => encodeU32 l.length ++ l.data) ++
    (match d.cnLit with
     | none => []
     | some l => encodeU32 l.length ++ l.data)

/-- A parsed sub-blob of the Requirements superblob: magic, declared length,
parsed requirement payload, and the raw payload bytes (the `bytes` field of
the `construct` Blob container). -/
structure ReqBlob where
  magic : String
  length : Int
  data : ReqData
  bytes : Bytes
  deriving Repr, DecidableEq

/-- An index entry of the Requirements superblob: `(type, offset)` plus the
pointed-to sub-blob, as `construct` parses it. -/
structure ReqIdx where
  type : Nat
  offset : Int
  blob : ReqBlob
  deriving Repr, DecidableEq

/-- Modelled from the spec: building a Blob writes its 8-byte header (magic
tag, declared length) followed by its raw payload bytes. -/
def reqBlobBuild (b : ReqBlob) : Bytes :=
  encodeU32 (magicCode b.magic) ++ encodeI32 b.length ++ b.bytes

/-- Modelled from the spec: `macho_cs.Entitlements.build` — re-encodes the
Requirements superblob payload: a count, the `(type, offset)` index entries,
then the concatenated sub-blobs. -/
def entitlementsBuild (count : Nat) (index : List ReqIdx) : Bytes :=
  encodeU32 count ++
    (index.map fun bi => encodeU32 bi.type ++ encodeI32 bi.offset).flatten ++
    (index.map fun bi => reqBlobBuild bi.blob).flatten

/-- The parsed CodeDirectory payload, with exactly the fields `codesig.py`
reads or writes (`version` gates the optional team-identifier fields, as in
the binary format; all untouched header fields are kept in `rest`). -/
structure CodeDirData where
  version : Nat
  rest : Bytes
  hashOffset : Int
  nSpecialSlots : Nat
  nCodeSlots : Nat
  hashType : Nat
  teamIDOffset : Option Int
  ident : Bytes
  teamID : Option Bytes
  hashes : List Bytes
  deriving Repr, DecidableEq

/-- Modelled from the spec: `macho_cs.CodeDirectory.build` — re-encodes the
directory payload: fixed header fields, the embedded identifier string
(NUL-terminated), the optional team-identifier fields (present only for
directory versions that carry them), then the digest array. -/
def codeDirectoryBuild (cd : CodeDirData) : Bytes :=
  encodeU32 cd.version ++ cd.rest ++ encodeI32 cd.hashOffset ++
    encodeU32 cd.nSpecialSlots ++ encodeU32 cd.nCodeSlots ++
    [cd.hashType % 256] ++
    cd.ident ++ [0] ++
    (if 0x20200 ≤ cd.version then
      (match cd.teamIDOffset with
       | none => []
       | some o => encodeI32 o) ++
      (match cd.teamID with
       | none => [0]
       | some t => t ++ [0])
     else []) ++
    cd.hashes.flatten

/-- The parsed payload of a top-level sub-blob, dispatched on its magic tag
exactly as `macho_cs`'s tag-directed `Switch` does: the Requirements blob
parses as a nested superblob (count + index), a CodeDirectory as
`CodeDirData`, Entitlements and wrapper blobs as raw bytes, anything else as
no parsed payload. -/
inductive BlobData where
  | requirementsData (count : Nat) (index : List ReqIdx)
  | codedir (cd : CodeDirData)
  | entitlement (d : Bytes)
  | blobwrapper (d : Bytes)
  | noneData
  deriving Repr, DecidableEq

/-- A parsed top-level sub-blob: the `construct` Blob container with its
magic, declared length, parsed payload `data`, raw payload `bytes`, and the
dynamically-added `count` attribute (Python lets `set_requirements` assign
`requirements.count = 0` on the container even though the Blob schema has no
such field; it starts absent and is ignored by the builder). -/
structure Blob where
  magic : String
  length : Int
  data : BlobData
  bytes : Bytes
  count : Option Int := none
  deriving Repr, DecidableEq

/-- Modelled from the spec: `macho_cs.Blob.build` — writes the 8-byte header
(magic tag, declared length) followed by the raw payload bytes.  `codesig.py`
refreshes a blob's `bytes` by hand after every payload mutation precisely
because the builder serialises the `bytes` field, not the parsed payload. -/
def blobBuild (b : Blob) : Bytes :=
  encodeU32 (magicCode b.magic) ++ encodeI32 b.length ++ b.bytes

/-- A top-level BlobIndex entry: `(type, offset)` plus the pointed-to blob. -/
structure BlobIdx where
  type : Nat
  offset : Int
  blob : Blob
  deriving Repr, DecidableEq

/-- The parsed payload of the top-level embedded-signature superblob:
a count and the ordered index entries. -/
structure SuperBlobData where
  count : Nat
  BlobIndex : List BlobIdx
  deriving Repr, DecidableEq

/-- Modelled from the spec: `macho_cs.SuperBlob.build` — re-encodes the
superblob payload: a count, the `(type, offset)` index entries, then the
concatenated sub-blobs. -/
def superBlobBuild (d : SuperBlobData) : Bytes :=
  encodeU32 d.count ++
    (d.BlobIndex.map fun bi => encodeU32 bi.type ++ encodeI32 bi.offset).flatten ++
    (d.BlobIndex.map fun bi => blobBuild bi.blob).flatten

/-- The whole parsed signature (`self.construct` in `Codesig`): the outer
Blob container holding the embedded-signature superblob. -/
structure TopBlob where
  magic : String
  length : Int
  data : SuperBlobData
  bytes : Bytes
  deriving Repr, DecidableEq

/-- `Codesig.build_data`: serialise the whole structure (outer header plus the
raw payload bytes). -/
def build_data (c : TopBlob) : Bytes :=
  encodeU32 (magicCode c.magic) ++ encodeI32 c.length ++ c.bytes

/-- The signer collaborator, as consumed by `codesig.py`: `is_adhoc()`,
`get_common_name()`, `get_team_id()`, `sign(old, digest_records)`. -/
structure Signer where
  adhoc : Bool
  commonName : Bytes
  teamId : Bytes
  sign : Bytes → List (Bytes × Bytes × Nat) → Bytes

/-- The five special-slot variants of `CodeDirectorySlot`. -/
inductive SlotKind where
  | entitlements
  | application
  | resourceDir
  | requirements
  | info
  deriving Repr, DecidableEq

/-- The signable collaborator: `get_changed_bundle_id()` (a falsy value is
modelled as `none`) and `should_fill_slot`. -/
structure Signable where
  changedBundleId : Option Bytes
  should_fill : SlotKind → Bool

/-- The bundle collaborator, as consumed by `Codesig.resign`: optional
entitlements bytes (`hasattr` and not `None`), the resource-seal file bytes
(`seal_path`), and the Info.plist bytes (`info_path`). -/
structure Bundle where
  entitlements : Option Bytes
  sealBytes : Bytes
  infoBytes : Bytes

/-- The fixed relative offset of each special-slot variant (the class
attribute `offset` of the `CodeDirectorySlot` subclasses). -/
def slotOffset : SlotKind → Int
  | .entitlements => -5
  | .application => -4
  | .resourceDir => -3
  | .requirements => -2
  | .info => -1

/-- `Codesig.get_blobs`: all top-level sub-blobs with the given magic, in
index order. -/
def get_blobs (magic : String) (c : TopBlob) : List Blob :=
  (c.data.BlobIndex.filter fun bi => bi.blob.magic == magic).map fun bi => bi.blob

/-- `Codesig.get_blob`: the unique sub-blob with the given magic; raises
`KeyError` when none exists and `MultipleEntriesException` (carrying the
count) when several do. -/
def get_blob (magic : String) (c : TopBlob) : Except PyErr Blob :=
  match get_blobs magic c with
  | [] => .error (.keyError magic)
  | [b] => .ok b
  | bs => .error (.multipleEntries bs.length)

/-- `Codesig.get_blob_data`: the serialised form of the unique sub-blob with
the given magic (`macho_cs.Blob_.build`, i.e. header plus raw payload). -/
def get_blob_data (magic : String) (c : TopBlob) : Except PyErr Bytes :=
  match get_blob magic c with
  | .error e => .error e
  | .ok b => .ok (blobBuild b)

/-- Functional counterpart of Python's in-place mutation of the blob found by
`get_blob`: rewrite every index entry whose blob has the given magic (after a
successful `get_blob` exactly one entry matches). -/
def updateBlob (magic : String) (f : Blob → Blob) (c : TopBlob) : TopBlob :=
  { c with data := { c.data with BlobIndex := c.data.BlobIndex.map fun bi =>
      if bi.blob.magic == magic then { bi with blob := f bi.blob } else bi } }

/-- `Codesig.set_entitlements`: if an entitlements blob exists, replace its
raw payload with the supplied bytes and set its declared length to the byte
count plus 8; a missing blob (`KeyError`) is tolerated and leaves the
structure unchanged; an ambiguous one propagates the exception. -/
def set_entitlements (entitlements_bytes : Bytes) (c : TopBlob) :
    Except PyErr TopBlob :=
  match get_blob "CSMAGIC_ENTITLEMENT" c with
  | .error (.keyError _) => .ok c
  | .error e => .error e
  | .ok _ => .ok (updateBlob "CSMAGIC_ENTITLEMENT"
      (fun b => { b with
        bytes := entitlements_bytes,
        length := (entitlements_bytes.length : Int) + 8 }) c)

/-- The bundle-identifier patch of `Codesig.set_requirements`: when a changed
bundle id is supplied, overwrite the bundle-identifier literal (found at its
fixed structural path) and recompute its length; a failing path lookup is
caught and leaves the tree unchanged. -/
def patchBundleLit (sgn : Signable) (d : ReqData) : ReqData :=
  match sgn.changedBundleId with
  | none => d
  | some bid =>
    match d.bundleLit with
    | none => d
    | some _ => { d with bundleLit := some ⟨bid.length, bid⟩ }

/-- `Codesig.set_requirements`: for an ad-hoc signer, set a `count` attribute
on the requirements Blob container to 0 and return; otherwise patch the
bundle-identifier literal (when supplied), then — only if the signer-CN
literal is found at its fixed structural path — replace it with the signer's
common name, rebuild entry 0's bytes and length, shift the offsets of the
later index entries by the length delta, and rebuild the Requirements
superblob payload and outer length. -/
def set_requirements (signer : Signer) (sgn : Signable) (c : TopBlob) :
    Except PyErr TopBlob :=
  match get_blob "CSMAGIC_REQUIREMENTS" c with
  | .error e => .error e
  | .ok requirements =>
    if signer.adhoc then
      .ok (updateBlob "CSMAGIC_REQUIREMENTS"
        (fun b => { b with count := some 0 }) c)
    else
      match requirements.data with
      | .requirementsData rcount rindex =>
        match rindex with
        | [] => .error .indexError
        | ri0 :: rrest =>
          let req0 := ri0.blob
          let origLen := req0.length
          let d0 := patchBundleLit sgn req0.data
          match d0.cnLit with
          | none =>
            let rindexU := { ri0 with blob := { req0 with data := d0 } } :: rrest
            .ok (updateBlob "CSMAGIC_REQUIREMENTS"
              (fun b => { b with data := .requirementsData rcount rindexU }) c)
          | some _ =>
            let d0' := { d0 with
              cnLit := some ⟨signer.commonName.length, signer.commonName⟩ }
            let newbytes := requirementBuild d0'
            let req0' : ReqBlob :=
              { req0 with
                data := d0', bytes := newbytes,
                length := (newbytes.length : Int) + 8 }
            let offsetDelta := req0'.length - origLen
            let rrest' := rrest.map fun bi =>
              { bi with offset := bi.offset + offsetDelta }
            let rindex' := { ri0 with blob := req0' } :: rrest'
            let payload := entitlementsBuild rcount rindex'
            .ok (updateBlob "CSMAGIC_REQUIREMENTS"
              (fun b => { b with
                data := .requirementsData rcount rindex',
                bytes := payload,
                length := (payload.length : Int) + 8 }) c)
      | _ => .error .attributeError

/-- The content source of each special-slot variant (`get_contents`):
entitlements and requirements serialise the corresponding blob (and can raise
`KeyError`), the resource-seal and Info slots read externally supplied bytes,
the application slot has no content source. -/
def slotContents (c : TopBlob) (sealBytes infoBytes : Bytes) :
    SlotKind → Except PyErr Bytes
  | .entitlements => get_blob_data "CSMAGIC_ENTITLEMENT" c
  | .application => .ok []
  | .resourceDir => .ok sealBytes
  | .requirements => get_blob_data "CSMAGIC_REQUIREMENTS" c
  | .info => .ok infoBytes

/-- `CodeDirectorySlot.get_hash`, the base-class implementation shared by the
content-digesting slot variants: digest the slot's contents with the selected
algorithm, raising `ValueError` on an unknown algorithm tag. -/
def codeDirectorySlot_get_hash (c : TopBlob) (sealBytes infoBytes : Bytes)
    (k : SlotKind) (hash_type : Nat) : Except PyErr Bytes :=
  if hash_type = SHA1_HASHTYPE then
    match slotContents c sealBytes infoBytes k with
    | .error e => .error e
    | .ok contents => .ok (sha1 contents)
  else if hash_type = SHA256_HASHTYPE then
    match slotContents c sealBytes infoBytes k with
    | .error e => .error e
    | .ok contents => .ok (sha256 contents)
  else .error (.valueError hash_type)

/-- The `get_hash` method of the slot variants: `ApplicationSlot` overrides
it to return an all-zero digest sized by the algorithm (20 bytes for the
legacy algorithm, 32 otherwise) without ever raising; every other variant
uses the shared base-class implementation. -/
def slotGetHash (c : TopBlob) (sealBytes infoBytes : Bytes) (k : SlotKind)
    (hash_type : Nat) : Except PyErr Bytes :=
  match k with
  | .application =>
    .ok (List.replicate (if hash_type = SHA1_HASHTYPE then 20 else 32) 0)
  | .entitlements =>
    codeDirectorySlot_get_hash c sealBytes infoBytes .entitlements hash_type
  | .resourceDir =>
    codeDirectorySlot_get_hash c sealBytes infoBytes .resourceDir hash_type
  | .requirements =>
    codeDirectorySlot_get_hash c sealBytes infoBytes .requirements hash_type
  | .info =>
    codeDirectorySlot_get_hash c sealBytes infoBytes .info hash_type

/-- `Codesig.get_codedirectory_hash_index`: a slot's index in the digest
array is its (negative) relative offset plus the directory's special-slot
count. -/
def get_codedirectory_hash_index (cd : CodeDirData) (k : SlotKind) : Int :=
  slotOffset k + (cd.nSpecialSlots : Int)

/-- `Codesig.has_codedirectory_slot`: the slot exists iff its computed index
is non-negative. -/
def has_codedirectory_slot (cd : CodeDirData) (k : SlotKind) : Bool :=
  0 ≤ get_codedirectory_hash_index cd k

/-- `Codesig.fill_codedirectory_slot`: when the external predicate approves
the slot, store its digest at the computed index of the digest array. -/
def fill_codedirectory_slot (c : TopBlob) (sealBytes infoBytes : Bytes)
    (sgn : Signable) (cd : CodeDirData) (k : SlotKind) :
    Except PyErr CodeDirData :=
  if sgn.should_fill k then
    match slotGetHash c sealBytes infoBytes k cd.hashType with
    | .error e => .error e
    | .ok h =>
      .ok { cd with hashes :=
        cd.hashes.set (get_codedirectory_hash_index cd k).toNat h }
  else .ok cd

/-- The slot sequence of the first loop of `Codesig.set_codedirectory`, in
source order, each paired with its extra guard (the entitlements slot is also
guarded by the signer not being ad-hoc). -/
def slotPlan (adhoc : Bool) : List (SlotKind × Bool) :=
  [(.entitlements, !adhoc), (.resourceDir, true), (.requirements, true),
    (.application, true), (.info, true)]

/-- Sequential slot filling over a slot sequence: each slot is filled only
when present (and its guard holds); a raised exception aborts the rest. -/
def fillSlotsList (c : TopBlob) (sealBytes infoBytes : Bytes)
    (sgn : Signable) : List (SlotKind × Bool) → CodeDirData →
    Except PyErr CodeDirData
  | [], cd => .ok cd
  | (k, g) :: rest, cd =>
    match (if has_codedirectory_slot cd k && g then
        fill_codedirectory_slot c sealBytes infoBytes sgn cd k
      else .ok cd) with
    | .error e => .error e
    | .ok cd' => fillSlotsList c sealBytes infoBytes sgn rest cd'

/-- The slot-filling pass of `Codesig.set_codedirectory` for one directory:
the five slots are tried in source order, each guarded by its presence check,
and the entitlements slot additionally by the signer not being ad-hoc. -/
def fillSlotsOfCd (c : TopBlob) (sealBytes infoBytes : Bytes) (adhoc : Bool)
    (sgn : Signable) (cd : CodeDirData) : Except PyErr CodeDirData :=
  fillSlotsList c sealBytes infoBytes sgn (slotPlan adhoc) cd

/-- Total, structurally recursive counterpart of `List.mapM` over `Except`,
used to thread possible exceptions through a loop over index entries. -/
def mapME (f : BlobIdx → Except PyErr BlobIdx) :
    List BlobIdx → Except PyErr (List BlobIdx)
  | [] => .ok []
  | a :: rest =>
    match f a with
    | .error e => .error e
    | .ok b =>
      match mapME f rest with
      | .error e => .error e
      | .ok bs => .ok (b :: bs)

/-- The first loop of `Codesig.set_codedirectory`: fill the special-slot
digests of every code directory in the signature. -/
def fillPass (sealBytes infoBytes : Bytes) (signer : Signer) (sgn : Signable)
    (c : TopBlob) : Except PyErr TopBlob :=
  match mapME (fun bi =>
    if bi.blob.magic == "CSMAGIC_CODEDIRECTORY" then
      match bi.blob.data with
      | .codedir cd =>
        match fillSlotsOfCd c sealBytes infoBytes signer.adhoc sgn cd with
        | .error e => .error e
        | .ok cd' => .ok { bi with blob := { bi.blob with data := .codedir cd' } }
      | _ => .error .attributeError
    else .ok bi) c.data.BlobIndex with
  | .error e => .error e
  | .ok idx => .ok { c with data := { c.data with BlobIndex := idx } }

/-- The body of the second loop of `Codesig.set_codedirectory` for one
directory blob: set the team identifier; when the bundle identifier changed,
overwrite it, shift `hashOffset`, set or shift `teamIDOffset`, and adjust the
declared length, all by `offset_change`; finally rebuild the directory's raw
payload bytes. -/
def patchCdBlob (signer : Signer) (sgn : Signable) (b : Blob)
    (cd : CodeDirData) : Blob :=
  let cd1 := { cd with teamID := some signer.teamId }
  match sgn.changedBundleId with
  | none =>
    let cd2 := cd1
    { b with data := .codedir cd2, bytes := codeDirectoryBuild cd2 }
  | some nid =>
    let offset_change : Int := (nid.length : Int) - (cd1.ident.length : Int)
    let cd2 := { cd1 with
      ident := nid,
      hashOffset := cd1.hashOffset + offset_change,
      teamIDOffset := some (match cd1.teamIDOffset with
        | none => offset_change
        | some t => t + offset_change) }
    { b with
      data := .codedir cd2, bytes := codeDirectoryBuild cd2,
      length := b.length + offset_change }

/-- The second loop of `Codesig.set_codedirectory` over all directories. -/
def patchPass (signer : Signer) (sgn : Signable) (c : TopBlob) :
    Except PyErr TopBlob :=
  match mapME (fun bi =>
    if bi.blob.magic == "CSMAGIC_CODEDIRECTORY" then
      match bi.blob.data with
      | .codedir cd => .ok { bi with blob := patchCdBlob signer sgn bi.blob cd }
      | _ => .error .attributeError
    else .ok bi) c.data.BlobIndex with
  | .error e => .error e
  | .ok idx => .ok { c with data := { c.data with BlobIndex := idx } }

/-- `Codesig.set_codedirectory`: the slot-filling loop followed by the
identifier/team-identifier patching loop. -/
def set_codedirectory (sealBytes infoBytes : Bytes) (signer : Signer) (sgn : Signable)
    (c : TopBlob) : Except PyErr TopBlob :=
  match fillPass sealBytes infoBytes signer sgn c with
  | .error e => .error e
  | .ok c1 => patchPass signer sgn c1

/-- `Codesig.get_codedirectories`. -/
def get_codedirectories (c : TopBlob) : List Blob :=
  get_blobs "CSMAGIC_CODEDIRECTORY" c

/-- `Codesig.get_codedirectory_hashes`: for every directory, both digests of
its serialised form, tagged with the directory's own hash type (directories
whose payload is not a parsed CodeDirectory would raise in Python; such
structures are outside every claim and yield hash type 0 here). -/
def get_codedirectory_hashes (c : TopBlob) : List (Bytes × Bytes × Nat) :=
  (get_codedirectories c).map fun cdb =>
    (sha1 (blobBuild cdb), sha256 (blobBuild cdb),
      match cdb.data with
      | .codedir cd => cd.hashType
      | _ => 0)

/-- `Codesig.set_signature`: find the (unique) wrapper blob, hand its current
payload and the directory digests to the external signer, and store the
returned signature as the wrapper's parsed data and raw payload, with the
declared length set to the signature size plus 8. -/
def set_signature (signer : Signer) (c : TopBlob) : Except PyErr TopBlob :=
  match get_blob "CSMAGIC_BLOBWRAPPER" c with
  | .error e => .error e
  | .ok sigwrapper =>
    let oldsig := sigwrapper.bytes
    let sig := signer.sign oldsig (get_codedirectory_hashes c)
    .ok (updateBlob "CSMAGIC_BLOBWRAPPER"
      (fun b => { b with
        data := .blobwrapper sig,
        length := (sig.length : Int) + 8,
        bytes := sig }) c)

/-- The offset-assignment loop of `Codesig.update_offsets`: starting from the
given running position, give each index entry the current position and
advance by the entry's freshly serialised blob size. -/
def assignOffsets (off : Int) : List BlobIdx → List BlobIdx
  | [] => []
  | bi :: rest =>
    { bi with offset := off } ::
      assignOffsets (off + ((blobBuild bi.blob).length : Int)) rest

/-- `Codesig.update_offsets`: reassign every top-level index offset
cumulatively from the first entry's original offset, then rebuild the
superblob payload and set the outer declared length to its size plus 8. -/
def update_offsets (c : TopBlob) : Except PyErr TopBlob :=
  match c.data.BlobIndex with
  | [] => .error .indexError
  | bi0 :: _ =>
    let idx := assignOffsets bi0.offset c.data.BlobIndex
    let d := { c.data with BlobIndex := idx }
    let superblob := superBlobBuild d
    .ok { c with
      data := d, length := (superblob.length : Int) + 8,
      bytes := superblob }

/-- `Codesig.resign`: entitlements (when the bundle supplies any), then
requirements, code directories, signature, and offset reconciliation. -/
def resign (bundle : Bundle) (signer : Signer) (sgn : Signable)
    (c : TopBlob) : Except PyErr TopBlob :=
  let step1 : Except PyErr TopBlob :=
    match bundle.entitlements with
    | some e => set_entitlements e c
    | none => .ok c
  match step1 with
  | .error e => .error e
  | .ok c =>
    match set_requirements signer sgn c with
    | .error e => .error e
    | .ok c =>
      match set_codedirectory bundle.sealBytes bundle.infoBytes signer sgn c with
      | .error e => .error e
      | .ok c =>
        match set_signature signer c with
        | .error e => .error e
        | .ok c => update_offsets c

/-! ## Helper lemmas -/

theorem blobBuild_length (b : Blob) :
    (blobBuild b).length = b.bytes.length + 8 := by
  simp [blobBuild, encodeU32, encodeI32]

theorem reqBlobBuild_length (b : ReqBlob) :
    (reqBlobBuild b).length = b.bytes.length + 8 := by
  simp [reqBlobBuild, encodeU32, encodeI32]

theorem get_blobs_of_split (m : String) (c : TopBlob) (pre post : List BlobIdx)
    (e : BlobIdx) (hsplit : c.data.BlobIndex = pre ++ e :: post)
    (he : e.blob.magic = m)
    (hpre : ∀ bi ∈ pre, bi.blob.magic ≠ m)
    (hpost : ∀ bi ∈ post, bi.blob.magic ≠ m) :
    get_blobs m c = [e.blob] := by
  unfold get_blobs
  rw [hsplit, List.filter_append, List.filter_cons_of_pos (by simp [he]),
    List.filter_eq_nil_iff.mpr (by simpa using hpre),
    List.filter_eq_nil_iff.mpr (by simpa using hpost)]
  simp

theorem get_blob_of_split (m : String) (c : TopBlob) (pre post : List BlobIdx)
    (e : BlobIdx) (hsplit : c.data.BlobIndex = pre ++ e :: post)
    (he : e.blob.magic = m)
    (hpre : ∀ bi ∈ pre, bi.blob.magic ≠ m)
    (hpost : ∀ bi ∈ post, bi.blob.magic ≠ m) :
    get_blob m c = .ok e.blob := by
  unfold get_blob
  rw [get_blobs_of_split m c pre post e hsplit he hpre hpost]

theorem map_upd_eq_self (m : String) (f : Blob → Blob) (l : List BlobIdx)
    (h : ∀ bi ∈ l, bi.blob.magic ≠ m) :
    (l.map fun bi =>
      if bi.blob.magic == m then { bi with blob := f bi.blob } else bi) = l := by
  induction l with
  | nil => rfl
  | cons a t ih =>
    have ha : ¬ (a.blob.magic == m) = true := by
      simpa using h a (by simp)
    simp only [List.map_cons, if_neg ha, ih (fun bi hb => h bi (by simp [hb]))]

theorem updateBlob_of_split (m : String) (f : Blob → Blob) (c : TopBlob)
    (pre post : List BlobIdx) (e : BlobIdx)
    (hsplit : c.data.BlobIndex = pre ++ e :: post)
    (he : e.blob.magic = m)
    (hpre : ∀ bi ∈ pre, bi.blob.magic ≠ m)
    (hpost : ∀ bi ∈ post, bi.blob.magic ≠ m) :
    updateBlob m f c = { c with data := { c.data with
      BlobIndex := pre ++ { e with blob := f e.blob } :: post } } := by
  unfold updateBlob
  rw [hsplit, List.map_append, List.map_cons, if_pos (by simp [he]),
    map_upd_eq_self m f pre hpre, map_upd_eq_self m f post hpost]

theorem get_blobs_of_get_blob_ok {m : String} {c : TopBlob} {b : Blob}
    (h : get_blob m c = .ok b) : get_blobs m c = [b] := by
  unfold get_blob at h
  rcases hg : get_blobs m c with _ | ⟨b0, _ | ⟨b1, t⟩⟩ <;> rw [hg] at h <;>
    simp_all

theorem split_of_filter_singleton {p : BlobIdx → Bool} :
    ∀ {l : List BlobIdx} {x : BlobIdx}, l.filter p = [x] →
    ∃ pre post, l = pre ++ x :: post ∧ (∀ bi ∈ pre, ¬ p bi) ∧
      (∀ bi ∈ post, ¬ p bi) ∧ p x := by
  intro l
  induction l with
  | nil => intro x h; simp [List.filter] at h
  | cons a t ih =>
    intro x h
    by_cases hp : p a
    · rw [List.filter_cons_of_pos hp] at h
      obtain ⟨hax, ht⟩ := List.cons_eq_cons.mp h
      refine ⟨[], t, by simp [hax], by simp, ?_, hax ▸ hp⟩
      exact fun bi hb => (List.filter_eq_nil_iff.mp ht) bi hb
    · rw [List.filter_cons_of_neg hp] at h
      obtain ⟨pre, post, h1, h2, h3, h4⟩ := ih h
      exact ⟨a :: pre, post, by simp [h1], by
        intro bi hb
        rcases List.mem_cons.mp hb with h' | h'
        · exact h' ▸ hp
        · exact h2 bi h', h3, h4⟩

theorem assignOffsets_length (off : Int) (l : List BlobIdx) :
    (assignOffsets off l).length = l.length := by
  induction l generalizing off with
  | nil => rfl
  | cons a t ih => simp [assignOffsets, ih]

theorem assignOffsets_getElem? (off : Int) (l : List BlobIdx) (i : Nat) :
    (assignOffsets off l)[i]? = (l[i]?).map fun bi =>
      { bi with offset := off +
        (((l.take i).map fun b => ((blobBuild b.blob).length : Int)).sum) } := by
  induction l generalizing off i with
  | nil => simp [assignOffsets]
  | cons a t ih =>
    cases i with
    | zero => simp [assignOffsets]
    | succ j =>
      simp only [assignOffsets, List.getElem?_cons_succ, List.take_succ_cons,
        List.map_cons, List.sum_cons, ih]
      congr 1
      funext bi
      congr 1
      omega

theorem assignOffsets_idem (off : Int) (l : List BlobIdx) :
    assignOffsets off (assignOffsets off l) = assignOffsets off l := by
  induction l generalizing off with
  | nil => rfl
  | cons a t ih => simp [assignOffsets, ih]

theorem fill_codedirectory_slot_shape {c : TopBlob} {sB iB : Bytes}
    {sgn : Signable} {cd cd' : CodeDirData} {k : SlotKind}
    (h : fill_codedirectory_slot c sB iB sgn cd k = .ok cd') :
    cd' = { cd with hashes := cd'.hashes } := by
  unfold fill_codedirectory_slot at h
  split at h
  · split at h
    · exact absurd h (by simp)
    · simp only [Except.ok.injEq] at h
      subst h
      rfl
  · simp only [Except.ok.injEq] at h
    subst h
    rfl

theorem fillSlotsList_shape {c : TopBlob} {sB iB : Bytes} {sgn : Signable} :
    ∀ {plan : List (SlotKind × Bool)} {cd cd' : CodeDirData},
    fillSlotsList c sB iB sgn plan cd = .ok cd' →
    cd' = { cd with hashes := cd'.hashes } := by
  intro plan
  induction plan with
  | nil =>
    intro cd cd' h
    simp only [fillSlotsList, Except.ok.injEq] at h
    subst h
    rfl
  | cons a rest ih =>
    intro cd cd' h
    unfold fillSlotsList at h
    rcases a with ⟨k, g⟩
    split at h
    · exact absurd h (by simp)
    · next cd1 heq =>
      have h1 : cd1 = { cd with hashes := cd1.hashes } := by
        split at heq
        · exact fill_codedirectory_slot_shape heq
        · simp only [Except.ok.injEq] at heq
          subst heq
          rfl
      have h2 := ih h
      rw [h1] at h2
      exact h2

theorem mapME_length {f : BlobIdx → Except PyErr BlobIdx} :
    ∀ {l l' : List BlobIdx}, mapME f l = .ok l' → l'.length = l.length := by
  intro l
  induction l with
  | nil =>
    intro l' h
    simp only [mapME, Except.ok.injEq] at h
    subst h
    rfl
  | cons a t ih =>
    intro l' h
    unfold mapME at h
    split at h
    · exact absurd h (by simp)
    · next b heq =>
      split at h
      · exact absurd h (by simp)
      · next bs heq' =>
        simp only [Except.ok.injEq] at h
        subst h
        simp [ih heq']

theorem mapME_getElem? {f : BlobIdx → Except PyErr BlobIdx} :
    ∀ {l l' : List BlobIdx}, mapME f l = .ok l' →
    ∀ (i : Nat) (bi : BlobIdx), l[i]? = some bi →
      ∃ bi', l'[i]? = some bi' ∧ f bi = .ok bi' := by
  intro l
  induction l with
  | nil =>
    intro l' h i bi hbi
    simp at hbi
  | cons a t ih =>
    intro l' h i bi hbi
    unfold mapME at h
    split at h
    · exact absurd h (by simp)
    · next b heq =>
      split at h
      · exact absurd h (by simp)
      · next bs heq' =>
        simp only [Except.ok.injEq] at h
        subst h
        cases i with
        | zero =>
          simp only [List.getElem?_cons_zero, Option.some.injEq] at hbi
          subst hbi
          exact ⟨b, by simp, heq⟩
        | succ j =>
          simp only [List.getElem?_cons_succ] at hbi ⊢
          exact ih heq' j bi hbi

/-! ## Concrete sample structures used by the witnesses -/

/-- A concrete entitlements blob. -/
def sampleEntBlob : Blob :=
  { magic := "CSMAGIC_ENTITLEMENT", length := 9, data := .entitlement [60],
    bytes := [60] }

/-- A concrete signature-wrapper blob. -/
def sampleWrapBlob : Blob :=
  { magic := "CSMAGIC_BLOBWRAPPER", length := 14,
    data := .blobwrapper [1, 2, 3, 4, 5, 6], bytes := [1, 2, 3, 4, 5, 6] }

/-- A concrete designated-requirement payload with both significant
literals present. -/
def sampleReqData : ReqData :=
  { kind := 1, bundleLit := some ⟨3, [99, 111, 109]⟩,
    cnLit := some ⟨5, [79, 108, 100, 67, 78]⟩, rest := [0, 0, 0, 6] }

/-- A concrete designated-requirement blob, bytes coherent with its data. -/
def sampleReqBlob : ReqBlob :=
  { magic := "CSMAGIC_REQUIREMENT",
    length := ((requirementBuild sampleReqData).length : Int) + 8,
    data := sampleReqData, bytes := requirementBuild sampleReqData }

/-- The payload of a second requirement entry (no significant literals). -/
def sampleReqData2 : ReqData :=
  { kind := 2, bundleLit := none, cnLit := none, rest := [1] }

/-- A second requirement entry, to exercise the offset-shifting loop. -/
def sampleReqBlob2 : ReqBlob :=
  { magic := "CSMAGIC_REQUIREMENT",
    length := ((requirementBuild sampleReqData2).length : Int) + 8,
    data := sampleReqData2, bytes := requirementBuild sampleReqData2 }

/-- The concrete Requirements superblob index. -/
def sampleReqIdx : List ReqIdx :=
  [⟨3, 28, sampleReqBlob⟩, ⟨4, 60, sampleReqBlob2⟩]

/-- The concrete Requirements blob (count 2, two entries), bytes coherent. -/
def sampleReqsBlob : Blob :=
  { magic := "CSMAGIC_REQUIREMENTS",
    length := ((entitlementsBuild 2 sampleReqIdx).length : Int) + 8,
    data := .requirementsData 2 sampleReqIdx,
    bytes := entitlementsBuild 2 sampleReqIdx }

/-- A concrete CodeDirectory payload: version carries team-identifier
fields, five special slots, two code slots, legacy hash type. -/
def sampleCdData : CodeDirData :=
  { version := 0x20200, rest := [0, 0, 0, 0], hashOffset := 50,
    nSpecialSlots := 5, nCodeSlots := 2, hashType := 1,
    teamIDOffset := some 40, ident := [99, 111, 109],
    teamID := some [84, 77],
    hashes := [List.replicate 20 9, List.replicate 20 8, List.replicate 20 7,
      List.replicate 20 6, List.replicate 20 5, List.replicate 20 4,
      List.replicate 20 3] }

/-- The concrete CodeDirectory blob, bytes coherent with its data. -/
def sampleCdBlob : Blob :=
  { magic := "CSMAGIC_CODEDIRECTORY",
    length := ((codeDirectoryBuild sampleCdData).length : Int) + 8,
    data := .codedir sampleCdData, bytes := codeDirectoryBuild sampleCdData }

/-- A concrete parsed signature with one CodeDirectory, one Requirements,
one Entitlements and one wrapper blob. -/
def sampleTop : TopBlob :=
  { magic := "CSMAGIC_EMBEDDED_SIGNATURE", length := 11,
    data := { count := 4, BlobIndex := [⟨0, 44, sampleCdBlob⟩,
      ⟨2, 100, sampleReqsBlob⟩, ⟨5, 200, sampleEntBlob⟩,
      ⟨0x10000, 250, sampleWrapBlob⟩] },
    bytes := [9, 9, 9] }

/-- A concrete non-ad-hoc signer. -/
def sampleSigner : Signer :=
  { adhoc := false, commonName := [78, 67, 78], teamId := [84, 77],
    sign := fun _ _ => [77, 77, 77, 77] }

/-- A concrete ad-hoc signer. -/
def adhocSigner : Signer :=
  { adhoc := true, commonName := [], teamId := [84, 77],
    sign := fun _ _ => [78] }

/-- A concrete signable with a changed bundle identifier, approving every
slot fill. -/
def sampleSignable : Signable :=
  { changedBundleId := some [99, 111, 109, 50], should_fill := fun _ => true }

/-! ## Claims -/

/-- C5: for every tag, `get_blob` raises a not-found error when no blob with
that tag exists in the top-level index, raises an ambiguity error carrying
the number of matching blobs when more than one exists (carrying 2 when the
tag occurs exactly twice), and returns the unique matching blob otherwise. -/
theorem c5_get_blob (m : String) (c : TopBlob) :
    ((∀ bi ∈ c.data.BlobIndex, bi.blob.magic ≠ m) →
        get_blob m c = .error (.keyError m)) ∧
    (∀ n, 2 ≤ n → (get_blobs m c).length = n →
        get_blob m c = .error (.multipleEntries n)) ∧
    ((get_blobs m c).length = 2 →
        get_blob m c = .error (.multipleEntries 2)) ∧
    (∀ b, get_blobs m c = [b] → get_blob m c = .ok b) := by
  have key : ∀ n, 2 ≤ n → (get_blobs m c).length = n →
      get_blob m c = .error (.multipleEntries n) := by
    intro n hn hlen
    rcases hg : get_blobs m c with _ | ⟨b0, _ | ⟨b1, t⟩⟩
    · rw [hg] at hlen; simp at hlen; omega
    · rw [hg] at hlen; simp at hlen; omega
    · unfold get_blob
      rw [hg]
      rw [hg] at hlen
      simp only [List.length_cons] at hlen
      rw [← hlen]
      rfl
  refine ⟨?_, key, key 2 (by norm_num), ?_⟩
  · intro h
    have hnil : get_blobs m c = [] := by
      unfold get_blobs
      rw [List.filter_eq_nil_iff.mpr (by simpa using h)]
      rfl
    unfold get_blob; rw [hnil]
  · intro b hb
    unfold get_blob; rw [hb]

/-- A structure with no entitlements blob. -/
def c5noEnt : TopBlob :=
  { magic := "CSMAGIC_EMBEDDED_SIGNATURE", length := 30,
    data := { count := 1, BlobIndex := [⟨0x10000, 20, sampleWrapBlob⟩] },
    bytes := [] }

/-- A structure with two entitlements blobs. -/
def c5twoEnt : TopBlob :=
  { magic := "CSMAGIC_EMBEDDED_SIGNATURE", length := 30,
    data := { count := 2, BlobIndex := [⟨5, 20, sampleEntBlob⟩,
      ⟨5, 29, sampleEntBlob⟩] },
    bytes := [] }

/-- Witness for C5 on concrete inputs: absent tag, doubled tag, unique tag. -/
theorem c5_get_blob_witness :
    get_blob "CSMAGIC_ENTITLEMENT" c5noEnt =
      .error (.keyError "CSMAGIC_ENTITLEMENT") ∧
    get_blob "CSMAGIC_ENTITLEMENT" c5twoEnt = .error (.multipleEntries 2) ∧
    get_blob "CSMAGIC_ENTITLEMENT" sampleTop = .ok sampleEntBlob :=
  ⟨(c5_get_blob "CSMAGIC_ENTITLEMENT" c5noEnt).1 (by decide),
   (c5_get_blob "CSMAGIC_ENTITLEMENT" c5twoEnt).2.2.1 (by decide),
   (c5_get_blob "CSMAGIC_ENTITLEMENT" sampleTop).2.2.2 sampleEntBlob
     (by decide)⟩

/-- C2: for a non-empty top-level blob index with freshly encoded blob sizes
`s0..s(n-1)` and first-entry base offset `b`, `update_offsets` assigns the
offsets `b, b+s0, b+s0+s1, ...` in the original entry order and sets the
outer superblob's declared length to the new encoded payload size plus 8. -/
theorem c2_update_offsets (c : TopBlob) (bi0 : BlobIdx) (t : List BlobIdx)
    (h : c.data.BlobIndex = bi0 :: t) :
    ∃ c', update_offsets c = .ok c' ∧
      (∀ i : Nat, c'.data.BlobIndex[i]? = (c.data.BlobIndex[i]?).map fun bi =>
        { bi with offset := bi0.offset +
          (((c.data.BlobIndex.take i).map
            fun b => ((blobBuild b.blob).length : Int)).sum) }) ∧
      c'.bytes = superBlobBuild c'.data ∧
      c'.length = ((superBlobBuild c'.data).length : Int) + 8 := by
  refine ⟨{ c with
    data := { c.data with
      BlobIndex := assignOffsets bi0.offset c.data.BlobIndex },
    length := ((superBlobBuild { c.data with
      BlobIndex := assignOffsets bi0.offset c.data.BlobIndex }).length : Int) + 8,
    bytes := superBlobBuild { c.data with
      BlobIndex := assignOffsets bi0.offset c.data.BlobIndex } }, ?_, ?_, rfl, rfl⟩
  · unfold update_offsets
    rw [h]
  · intro i
    exact assignOffsets_getElem? bi0.offset c.data.BlobIndex i

/-- Witness for C2: the sample four-blob signature. -/
theorem c2_update_offsets_witness :
    ∃ c', update_offsets sampleTop = .ok c' ∧
      (∀ i : Nat, c'.data.BlobIndex[i]? =
        (sampleTop.data.BlobIndex[i]?).map fun bi =>
        { bi with offset := (44 : Int) +
          (((sampleTop.data.BlobIndex.take i).map
            fun b => ((blobBuild b.blob).length : Int)).sum) }) ∧
      c'.bytes = superBlobBuild c'.data ∧
      c'.length = ((superBlobBuild c'.data).length : Int) + 8 :=
  c2_update_offsets sampleTop ⟨0, 44, sampleCdBlob⟩
    [⟨2, 100, sampleReqsBlob⟩, ⟨5, 200, sampleEntBlob⟩,
      ⟨0x10000, 250, sampleWrapBlob⟩] rfl

/-- C7: running `update_offsets` twice in succession yields exactly the same
structure (offsets, lengths, and encoded bytes) as running it once. -/
theorem c7_update_offsets_idem (c c' : TopBlob)
    (h : update_offsets c = .ok c') : update_offsets c' = .ok c' := by
  unfold update_offsets at h ⊢
  rcases hg : c.data.BlobIndex with _ | ⟨bi0, t⟩
  · rw [hg] at h; exact absurd h (by simp)
  · rw [hg] at h
    simp only [Except.ok.injEq] at h
    subst h
    simp only [assignOffsets]
    rw [assignOffsets_idem]

/-- Witness for C7, on the sample signature (one application of
`update_offsets` is a fixed point of a second one). -/
theorem c7_update_offsets_idem_witness :
    update_offsets ((update_offsets sampleTop).toOption.getD sampleTop) =
      .ok ((update_offsets sampleTop).toOption.getD sampleTop) :=
  c7_update_offsets_idem sampleTop _ (by rfl)

/-- C10: if the signature contains no entitlements blob, `set_entitlements`
returns without raising and leaves the whole structure unchanged; if exactly
one entitlements blob exists, it replaces that blob's payload with the
supplied bytes and sets the blob's length to the byte count plus 8, changing
nothing else. -/
theorem c10_set_entitlements (e : Bytes) (c : TopBlob) :
    ((∀ bi ∈ c.data.BlobIndex, bi.blob.magic ≠ "CSMAGIC_ENTITLEMENT") →
      set_entitlements e c = .ok c) ∧
    (∀ pre post ent, c.data.BlobIndex = pre ++ ent :: post →
      ent.blob.magic = "CSMAGIC_ENTITLEMENT" →
      (∀ bi ∈ pre, bi.blob.magic ≠ "CSMAGIC_ENTITLEMENT") →
      (∀ bi ∈ post, bi.blob.magic ≠ "CSMAGIC_ENTITLEMENT") →
      set_entitlements e c = .ok { c with data := { c.data with
        BlobIndex := pre ++ { ent with blob := { ent.blob with
          bytes := e, length := (e.length : Int) + 8 } } :: post } }) := by
  constructor
  · intro h
    have hnil : get_blobs "CSMAGIC_ENTITLEMENT" c = [] := by
      unfold get_blobs
      rw [List.filter_eq_nil_iff.mpr (by simpa using h)]
      rfl
    have hgb : get_blob "CSMAGIC_ENTITLEMENT" c =
        .error (.keyError "CSMAGIC_ENTITLEMENT") := by
      unfold get_blob; rw [hnil]
    unfold set_entitlements
    rw [hgb]
  · intro pre post ent hsplit hm hpre hpost
    unfold set_entitlements
    rw [get_blob_of_split _ c pre post ent hsplit hm hpre hpost]
    rw [updateBlob_of_split _ _ c pre post ent hsplit hm hpre hpost]

set_option maxRecDepth 8192 in
/-- Witness for C10: the absent case on a structure without entitlements,
and the unique case on the sample signature. -/
theorem c10_set_entitlements_witness :
    set_entitlements [61, 62] c5noEnt = .ok c5noEnt ∧
    set_entitlements [61, 62] sampleTop = .ok { sampleTop with
      data := { sampleTop.data with BlobIndex := [⟨0, 44, sampleCdBlob⟩,
        ⟨2, 100, sampleReqsBlob⟩,
        ⟨5, 200, { sampleEntBlob with bytes := [61, 62], length := 10 }⟩,
        ⟨0x10000, 250, sampleWrapBlob⟩] } } :=
  ⟨(c10_set_entitlements [61, 62] c5noEnt).1 (by decide),
   ((c10_set_entitlements [61, 62] sampleTop).2
      [⟨0, 44, sampleCdBlob⟩, ⟨2, 100, sampleReqsBlob⟩]
      [⟨0x10000, 250, sampleWrapBlob⟩] ⟨5, 200, sampleEntBlob⟩ rfl rfl
      (by decide) (by decide)).trans (congrArg Except.ok (by decide))⟩

/-- C3: when the bundle identifier has changed, `set_codedirectory` computes
`offset_change = len(new_identifier) - len(old_identifier)` for every code
directory, overwrites the identifier, shifts `hashOffset` by `offset_change`,
sets `teamIDOffset` to `offset_change` when no team-identifier offset was
previously recorded and otherwise adds `offset_change` to it, and changes the
directory's declared length by exactly `offset_change`; in particular a
one-byte-longer identifier increases `hashOffset`, an already-set
`teamIDOffset`, and the declared length each by exactly 1. -/
theorem c3_set_codedirectory (sB iB : Bytes) (signer : Signer)
    (sgn : Signable) (c c' : TopBlob) (nid : Bytes)
    (hbid : sgn.changedBundleId = some nid)
    (hok : set_codedirectory sB iB signer sgn c = .ok c')
    (i : Nat) (bi : BlobIdx) (cd : CodeDirData)
    (hentry : c.data.BlobIndex[i]? = some bi)
    (hmagic : bi.blob.magic = "CSMAGIC_CODEDIRECTORY")
    (hdata : bi.blob.data = .codedir cd) :
    ∃ bi' cd', c'.data.BlobIndex[i]? = some bi' ∧
      bi'.type = bi.type ∧ bi'.offset = bi.offset ∧
      bi'.blob.data = .codedir cd' ∧
      cd'.ident = nid ∧
      cd'.hashOffset =
        cd.hashOffset + ((nid.length : Int) - (cd.ident.length : Int)) ∧
      (cd.teamIDOffset = none → cd'.teamIDOffset =
        some ((nid.length : Int) - (cd.ident.length : Int))) ∧
      (∀ t0, cd.teamIDOffset = some t0 → cd'.teamIDOffset =
        some (t0 + ((nid.length : Int) - (cd.ident.length : Int)))) ∧
      bi'.blob.length =
        bi.blob.length + ((nid.length : Int) - (cd.ident.length : Int)) ∧
      (nid.length = cd.ident.length + 1 →
        cd'.hashOffset = cd.hashOffset + 1 ∧
        bi'.blob.length = bi.blob.length + 1 ∧
        ∀ t0, cd.teamIDOffset = some t0 →
          cd'.teamIDOffset = some (t0 + 1)) := by
  unfold set_codedirectory at hok
  split at hok
  · exact absurd hok (by simp)
  · next c1 hfill =>
    unfold fillPass at hfill
    split at hfill
    · exact absurd hfill (by simp)
    · next idx hmap =>
      simp only [Except.ok.injEq] at hfill
      subst hfill
      unfold patchPass at hok
      split at hok
      · exact absurd hok (by simp)
      · next idx2 hmap2 =>
        simp only [Except.ok.injEq] at hok
        subst hok
        have hcond : (bi.blob.magic == "CSMAGIC_CODEDIRECTORY") = true := by
          simp [hmagic]
        obtain ⟨bi1, hbi1, hf1⟩ := mapME_getElem? hmap i bi hentry
        simp only [hcond, if_true, hdata] at hf1
        split at hf1
        · exact absurd hf1 (by simp)
        · next cd1 hfs =>
          simp only [Except.ok.injEq] at hf1
          subst hf1
          have hshape := fillSlotsList_shape hfs
          obtain ⟨bi2, hbi2, hf2⟩ := mapME_getElem? hmap2 i _ hbi1
          simp only [hcond, if_true, Except.ok.injEq] at hf2
          subst hf2
          rw [hshape] at hbi2
          unfold patchCdBlob at hbi2
          rw [hbid] at hbi2
          refine ⟨_, _, hbi2, rfl, rfl, rfl, rfl, rfl, ?_, ?_, rfl, ?_⟩
          · intro h0
            dsimp only
            rw [h0]
          · intro t0 h0
            dsimp only
            rw [h0]
          · intro hlen
            refine ⟨?_, ?_, ?_⟩
            · dsimp only
              rw [hlen]
              push_cast
              ring
            · dsimp only
              rw [hlen]
              push_cast
              ring
            · intro t0 h0
              dsimp only
              rw [h0, hlen]
              push_cast
              ring_nf

set_option maxRecDepth 8192 in
/-- Witness for C3 on the sample signature, identifier "com" → "com2"
(one byte longer): `hashOffset` 50 → 51, `teamIDOffset` shifts by 1, and the
declared length grows by 1. -/
theorem c3_set_codedirectory_witness :
    ∃ bi' cd',
      ((set_codedirectory [1] [2] sampleSigner sampleSignable
          sampleTop).toOption.getD sampleTop).data.BlobIndex[0]? = some bi' ∧
      bi'.type = (0 : Nat) ∧ bi'.offset = (44 : Int) ∧
      bi'.blob.data = .codedir cd' ∧
      cd'.ident = [99, 111, 109, 50] ∧
      cd'.hashOffset = 51 ∧
      (sampleCdData.teamIDOffset = none → cd'.teamIDOffset = some 1) ∧
      (∀ t0, sampleCdData.teamIDOffset = some t0 →
        cd'.teamIDOffset = some (t0 + 1)) ∧
      bi'.blob.length = sampleCdBlob.length + 1 ∧
      (([99, 111, 109, 50] : Bytes).length = sampleCdData.ident.length + 1 →
        cd'.hashOffset = sampleCdData.hashOffset + 1 ∧
        bi'.blob.length = sampleCdBlob.length + 1 ∧
        ∀ t0, sampleCdData.teamIDOffset = some t0 →
          cd'.teamIDOffset = some (t0 + 1)) :=
  c3_set_codedirectory [1] [2] sampleSigner sampleSignable sampleTop
    ((set_codedirectory [1] [2] sampleSigner sampleSignable
      sampleTop).toOption.getD sampleTop) [99, 111, 109, 50] rfl (by rfl)
    0 ⟨0, 44, sampleCdBlob⟩ sampleCdData rfl rfl rfl

/-- The common-name literal is untouched by the bundle-identifier patch. -/
theorem patchBundleLit_cnLit (sgn : Signable) (d : ReqData) :
    (patchBundleLit sgn d).cnLit = d.cnLit := by
  unfold patchBundleLit
  cases sgn.changedBundleId with
  | none => rfl
  | some bid =>
    cases d.bundleLit with
    | none => rfl
    | some l => rfl

/-- C1: for a signature with a (unique) Requirements superblob and a
non-ad-hoc signer, when the signer-CN literal is present (and the
bundle-identifier literal is present whenever a changed bundle id is
supplied), `set_requirements` replaces the bundle-identifier literal of
entry 0 with the changed bundle id (when one is supplied) and the signer-CN
literal with the signer's common name, recomputes entry 0's encoded length,
adds `delta = new_length - old_length` to the offset of every later index
entry while keeping entry 0's offset, and re-encodes the Requirements
superblob with outer length equal to the new payload size plus 8. -/
theorem c1_set_requirements (signer : Signer) (sgn : Signable) (c : TopBlob)
    (pre post : List BlobIdx) (re : BlobIdx) (rcount : Nat)
    (ri0 : ReqIdx) (rrest : List ReqIdx)
    (hsplit : c.data.BlobIndex = pre ++ re :: post)
    (hm : re.blob.magic = "CSMAGIC_REQUIREMENTS")
    (hpre : ∀ bi ∈ pre, bi.blob.magic ≠ "CSMAGIC_REQUIREMENTS")
    (hpost : ∀ bi ∈ post, bi.blob.magic ≠ "CSMAGIC_REQUIREMENTS")
    (hdata : re.blob.data = .requirementsData rcount (ri0 :: rrest))
    (hadhoc : signer.adhoc = false)
    (hcn : ri0.blob.data.cnLit.isSome)
    (hbl : sgn.changedBundleId.isSome → ri0.blob.data.bundleLit.isSome) :
    ∃ c' reqb' req0' rrest',
      set_requirements signer sgn c = .ok c' ∧
      get_blob "CSMAGIC_REQUIREMENTS" c' = .ok reqb' ∧
      reqb'.data = .requirementsData rcount
        ({ ri0 with blob := req0' } :: rrest') ∧
      (∀ bid, sgn.changedBundleId = some bid →
        req0'.data.bundleLit = some ⟨bid.length, bid⟩) ∧
      (sgn.changedBundleId = none →
        req0'.data.bundleLit = ri0.blob.data.bundleLit) ∧
      req0'.data.cnLit = some ⟨signer.commonName.length, signer.commonName⟩ ∧
      req0'.bytes = requirementBuild req0'.data ∧
      req0'.length = (req0'.bytes.length : Int) + 8 ∧
      rrest'.length = rrest.length ∧
      (∀ j : Nat, (rrest'[j]?).map ReqIdx.offset = (rrest[j]?).map
        fun e => e.offset + (req0'.length - ri0.blob.length)) ∧
      (∀ j : Nat, (rrest'[j]?).map ReqIdx.blob = (rrest[j]?).map ReqIdx.blob) ∧
      reqb'.bytes = entitlementsBuild rcount
        ({ ri0 with blob := req0' } :: rrest') ∧
      reqb'.length = (reqb'.bytes.length : Int) + 8 := by
  obtain ⟨cl, hcl⟩ := Option.isSome_iff_exists.mp hcn
  have hgb := get_blob_of_split _ c pre post re hsplit hm hpre hpost
  have hd0cn : (patchBundleLit sgn ri0.blob.data).cnLit = some cl :=
    (patchBundleLit_cnLit sgn ri0.blob.data).trans hcl
  have hsr : set_requirements signer sgn c = .ok (updateBlob
      "CSMAGIC_REQUIREMENTS" (fun b => { b with
        data := .requirementsData rcount
          ({ ri0 with blob := { ri0.blob with
            data := { patchBundleLit sgn ri0.blob.data with
              cnLit := some ⟨signer.commonName.length, signer.commonName⟩ },
            bytes := requirementBuild { patchBundleLit sgn ri0.blob.data with
              cnLit := some ⟨signer.commonName.length, signer.commonName⟩ },
            length := ((requirementBuild { patchBundleLit sgn ri0.blob.data with
              cnLit := some ⟨signer.commonName.length,
                signer.commonName⟩ }).length : Int) + 8 } } ::
            rrest.map fun bi => { bi with offset := bi.offset +
              (((requirementBuild { patchBundleLit sgn ri0.blob.data with
                cnLit := some ⟨signer.commonName.length,
                  signer.commonName⟩ }).length : Int) + 8 - ri0.blob.length) })
        bytes := entitlementsBuild rcount
          ({ ri0 with blob := { ri0.blob with
            data := { patchBundleLit sgn ri0.blob.data with
              cnLit := some ⟨signer.commonName.length, signer.commonName⟩ },
            bytes := requirementBuild { patchBundleLit sgn ri0.blob.data with
              cnLit := some ⟨signer.commonName.length, signer.commonName⟩ },
            length := ((requirementBuild { patchBundleLit sgn ri0.blob.data with
              cnLit := some ⟨signer.commonName.length,
                signer.commonName⟩ }).length : Int) + 8 } } ::
            rrest.map fun bi => { bi with offset := bi.offset +
              (((requirementBuild { patchBundleLit sgn ri0.blob.data with
                cnLit := some ⟨signer.commonName.length,
                  signer.commonName⟩ }).length : Int) + 8 - ri0.blob.length) }),
        length := ((entitlementsBuild rcount
          ({ ri0 with blob := { ri0.blob with
            data := { patchBundleLit sgn ri0.blob.data with
              cnLit := some ⟨signer.commonName.length, signer.commonName⟩ },
            bytes := requirementBuild { patchBundleLit sgn ri0.blob.data with
              cnLit := some ⟨signer.commonName.length, signer.commonName⟩ },
            length := ((requirementBuild { patchBundleLit sgn ri0.blob.data with
              cnLit := some ⟨signer.commonName.length,
                signer.commonName⟩ }).length : Int) + 8 } } ::
            rrest.map fun bi => { bi with offset := bi.offset +
              (((requirementBuild { patchBundleLit sgn ri0.blob.data with
                cnLit := some ⟨signer.commonName.length,
                  signer.commonName⟩ }).length : Int) + 8 -
                ri0.blob.length) })).length : Int) + 8 }) c) := by
    unfold set_requirements
    rw [hgb]
    simp only [hadhoc, Bool.false_eq_true, if_false]
    rw [hdata]
    simp only [hd0cn]
  rw [updateBlob_of_split "CSMAGIC_REQUIREMENTS" _ c pre post re hsplit hm
    hpre hpost] at hsr
  refine ⟨_, _, _, _, hsr,
    get_blob_of_split _ _ pre post _ rfl hm hpre hpost,
    rfl, ?_, ?_, rfl, rfl, rfl, by simp, ?_, ?_, rfl, rfl⟩
  · intro bid hbid
    obtain ⟨l, hl⟩ := Option.isSome_iff_exists.mp (hbl (by simp [hbid]))
    simp [patchBundleLit, hbid, hl]
  · intro h0
    simp [patchBundleLit, h0]
  · intro j
    simp only [List.getElem?_map]
    cases rrest[j]? with
    | none => rfl
    | some e => rfl
  · intro j
    simp only [List.getElem?_map]
    cases rrest[j]? with
    | none => rfl
    | some e => rfl

set_option maxRecDepth 8192 in
/-- Witness for C1 on the sample signature: unique Requirements blob with
two entries, CN literal present, changed bundle id supplied. -/
theorem c1_set_requirements_witness :
    ∃ c' reqb' req0' rrest',
      set_requirements sampleSigner sampleSignable sampleTop = .ok c' ∧
      get_blob "CSMAGIC_REQUIREMENTS" c' = .ok reqb' ∧
      reqb'.data = .requirementsData 2
        ({ (⟨3, 28, sampleReqBlob⟩ : ReqIdx) with blob := req0' } :: rrest') ∧
      (∀ bid, sampleSignable.changedBundleId = some bid →
        req0'.data.bundleLit = some ⟨bid.length, bid⟩) ∧
      (sampleSignable.changedBundleId = none →
        req0'.data.bundleLit = sampleReqBlob.data.bundleLit) ∧
      req0'.data.cnLit = some ⟨sampleSigner.commonName.length,
        sampleSigner.commonName⟩ ∧
      req0'.bytes = requirementBuild req0'.data ∧
      req0'.length = (req0'.bytes.length : Int) + 8 ∧
      rrest'.length = [(⟨4, 60, sampleReqBlob2⟩ : ReqIdx)].length ∧
      (∀ j : Nat, (rrest'[j]?).map ReqIdx.offset =
        (([(⟨4, 60, sampleReqBlob2⟩ : ReqIdx)])[j]?).map
          fun e => e.offset + (req0'.length - sampleReqBlob.length)) ∧
      (∀ j : Nat, (rrest'[j]?).map ReqIdx.blob =
        (([(⟨4, 60, sampleReqBlob2⟩ : ReqIdx)])[j]?).map ReqIdx.blob) ∧
      reqb'.bytes = entitlementsBuild 2
        ({ (⟨3, 28, sampleReqBlob⟩ : ReqIdx) with blob := req0' } :: rrest') ∧
      reqb'.length = (reqb'.bytes.length : Int) + 8 :=
  c1_set_requirements sampleSigner sampleSignable sampleTop
    [⟨0, 44, sampleCdBlob⟩]
    [⟨5, 200, sampleEntBlob⟩, ⟨0x10000, 250, sampleWrapBlob⟩]
    ⟨2, 100, sampleReqsBlob⟩ 2 ⟨3, 28, sampleReqBlob⟩
    [⟨4, 60, sampleReqBlob2⟩] rfl rfl (by decide) (by decide) rfl rfl
    (by decide) (by decide)

/-- C9: with a non-ad-hoc signer and no signer-CN literal at its fixed
structural path, `set_requirements` returns without raising and leaves the
Requirements blob's encoded bytes, outer length, and every index entry's
offset (and entry 0's own bytes and length) unchanged; a changed bundle
identifier may still be written into the parsed expression tree of entry 0,
but that change is not propagated into the re-encoded Requirements bytes. -/
theorem c9_set_requirements_cn_missing (signer : Signer) (sgn : Signable)
    (c : TopBlob) (pre post : List BlobIdx) (re : BlobIdx) (rcount : Nat)
    (ri0 : ReqIdx) (rrest : List ReqIdx)
    (hsplit : c.data.BlobIndex = pre ++ re :: post)
    (hm : re.blob.magic = "CSMAGIC_REQUIREMENTS")
    (hpre : ∀ bi ∈ pre, bi.blob.magic ≠ "CSMAGIC_REQUIREMENTS")
    (hpost : ∀ bi ∈ post, bi.blob.magic ≠ "CSMAGIC_REQUIREMENTS")
    (hdata : re.blob.data = .requirementsData rcount (ri0 :: rrest))
    (hadhoc : signer.adhoc = false)
    (hcn : ri0.blob.data.cnLit = none) :
    ∃ c' reqb' req0',
      set_requirements signer sgn c = .ok c' ∧
      get_blob "CSMAGIC_REQUIREMENTS" c' = .ok reqb' ∧
      reqb'.bytes = re.blob.bytes ∧
      reqb'.length = re.blob.length ∧
      reqb'.data = .requirementsData rcount
        ({ ri0 with blob := req0' } :: rrest) ∧
      req0'.bytes = ri0.blob.bytes ∧
      req0'.length = ri0.blob.length ∧
      (∀ bid, sgn.changedBundleId = some bid →
        ri0.blob.data.bundleLit.isSome →
        req0'.data.bundleLit = some ⟨bid.length, bid⟩) ∧
      req0'.data.cnLit = none := by
  have hgb := get_blob_of_split _ c pre post re hsplit hm hpre hpost
  have hd0cn : (patchBundleLit sgn ri0.blob.data).cnLit = none :=
    (patchBundleLit_cnLit sgn ri0.blob.data).trans hcn
  have hsr : set_requirements signer sgn c = .ok (updateBlob
      "CSMAGIC_REQUIREMENTS" (fun b => { b with
        data := .requirementsData rcount ({ ri0 with blob := { ri0.blob with
          data := patchBundleLit sgn ri0.blob.data } } :: rrest) }) c) := by
    unfold set_requirements
    rw [hgb]
    simp only [hadhoc, Bool.false_eq_true, if_false]
    rw [hdata]
    simp only [hd0cn]
  rw [updateBlob_of_split "CSMAGIC_REQUIREMENTS" _ c pre post re hsplit hm
    hpre hpost] at hsr
  refine ⟨_, _, _, hsr,
    get_blob_of_split _ _ pre post _ rfl hm hpre hpost,
    rfl, rfl, rfl, rfl, rfl, ?_, hd0cn⟩
  intro bid hbid hsome
  obtain ⟨l, hl⟩ := Option.isSome_iff_exists.mp hsome
  simp [patchBundleLit, hbid, hl]

/-- A Requirements blob whose designated requirement has a bundle-id literal
but no signer-CN literal. -/
def reqDataNoCN : ReqData :=
  { kind := 1, bundleLit := some ⟨3, [99, 111, 109]⟩, cnLit := none,
    rest := [0, 0, 0, 6] }

/-- The requirement blob for the CN-missing scenario. -/
def reqBlobNoCN : ReqBlob :=
  { magic := "CSMAGIC_REQUIREMENT",
    length := ((requirementBuild reqDataNoCN).length : Int) + 8,
    data := reqDataNoCN, bytes := requirementBuild reqDataNoCN }

/-- The Requirements superblob for the CN-missing scenario. -/
def reqsBlobNoCN : Blob :=
  { magic := "CSMAGIC_REQUIREMENTS",
    length := ((entitlementsBuild 1 [⟨3, 28, reqBlobNoCN⟩]).length : Int) + 8,
    data := .requirementsData 1 [⟨3, 28, reqBlobNoCN⟩],
    bytes := entitlementsBuild 1 [⟨3, 28, reqBlobNoCN⟩] }

/-- A signature whose Requirements superblob lacks the signer-CN literal. -/
def topNoCN : TopBlob :=
  { magic := "CSMAGIC_EMBEDDED_SIGNATURE", length := 11,
    data := { count := 2, BlobIndex := [⟨2, 44, reqsBlobNoCN⟩,
      ⟨0x10000, 250, sampleWrapBlob⟩] },
    bytes := [9, 9, 9] }

set_option maxRecDepth 8192 in
/-- Witness for C9: non-ad-hoc signer, changed bundle id supplied, CN
literal absent. -/
theorem c9_set_requirements_cn_missing_witness :
    ∃ c' reqb' req0',
      set_requirements sampleSigner sampleSignable topNoCN = .ok c' ∧
      get_blob "CSMAGIC_REQUIREMENTS" c' = .ok reqb' ∧
      reqb'.bytes = reqsBlobNoCN.bytes ∧
      reqb'.length = reqsBlobNoCN.length ∧
      reqb'.data = .requirementsData 1
        ({ (⟨3, 28, reqBlobNoCN⟩ : ReqIdx) with blob := req0' } :: []) ∧
      req0'.bytes = reqBlobNoCN.bytes ∧
      req0'.length = reqBlobNoCN.length ∧
      (∀ bid, sampleSignable.changedBundleId = some bid →
        reqBlobNoCN.data.bundleLit.isSome →
        req0'.data.bundleLit = some ⟨bid.length, bid⟩) ∧
      req0'.data.cnLit = none :=
  c9_set_requirements_cn_missing sampleSigner sampleSignable topNoCN
    [] [⟨0x10000, 250, sampleWrapBlob⟩] ⟨2, 44, reqsBlobNoCN⟩ 1
    ⟨3, 28, reqBlobNoCN⟩ [] rfl rfl (by simp) (by decide) rfl rfl rfl

/-- Counterexample to C6 as stated: for the Application slot variant,
`get_hash` with the unknown algorithm tag 3 does not fail — the override
returns a 32-byte all-zero digest. -/
theorem c6_application_no_error :
    slotGetHash c5noEnt [] [] .application 3 = .ok (List.replicate 32 0) ∧
    ¬ ∃ e, slotGetHash c5noEnt [] [] .application 3 = .error e := by
  refine ⟨rfl, ?_⟩
  rintro ⟨e, he⟩
  rw [show slotGetHash c5noEnt [] [] .application 3 =
    .ok (List.replicate 32 0) from rfl] at he
  exact absurd he (by simp)

/-- C6 (amended): the four content-digesting slot variants (Entitlements,
ResourceDirectory, Requirements, Info) fail with an unsupported-algorithm
error for every algorithm tag other than the two supported ones; the
Application variant instead returns a 32-byte all-zero digest for every
tag other than the legacy one, never failing. -/
theorem c6_get_hash_unsupported (c : TopBlob) (sB iB : Bytes) (ht : Nat)
    (h1 : ht ≠ SHA1_HASHTYPE) (h2 : ht ≠ SHA256_HASHTYPE) :
    (∀ k, k ≠ SlotKind.application →
      slotGetHash c sB iB k ht = .error (.valueError ht)) ∧
    slotGetHash c sB iB .application ht = .ok (List.replicate 32 0) := by
  constructor
  · intro k hk
    cases k
    · simp [slotGetHash, codeDirectorySlot_get_hash, h1, h2]
    · exact absurd rfl hk
    · simp [slotGetHash, codeDirectorySlot_get_hash, h1, h2]
    · simp [slotGetHash, codeDirectorySlot_get_hash, h1, h2]
    · simp [slotGetHash, codeDirectorySlot_get_hash, h1, h2]
  · unfold slotGetHash
    rw [if_neg h1]

/-- Witness for the amended C6 at the concrete unknown tag 3. -/
theorem c6_get_hash_unsupported_witness :
    slotGetHash sampleTop [3] [4] .entitlements 3 =
      .error (.valueError 3) ∧
    slotGetHash sampleTop [3] [4] .application 3 =
      .ok (List.replicate 32 0) :=
  ⟨(c6_get_hash_unsupported sampleTop [3] [4] 3 (by decide) (by decide)).1
      .entitlements (by decide),
   (c6_get_hash_unsupported sampleTop [3] [4] 3 (by decide) (by decide)).2⟩

/-- The bundle for the ad-hoc scenario: entitlements bytes are supplied. -/
def adhocBundle : Bundle :=
  { entitlements := some [61, 62], sealBytes := [1, 2], infoBytes := [3, 4] }

set_option maxRecDepth 16384 in
/-- C4 fails on the code: for an ad-hoc signer, `set_requirements` assigns
`requirements.count = 0` to a field the Blob schema does not have and
returns without rebuilding the blob's bytes or length, so after a full
`resign` the Requirements superblob still carries its original non-empty
encoding (raw bytes, declared length, and parsed requirement count 2 all
unchanged) rather than an empty, minimal-length one.  The entitlements-slot
half of the claim does hold: slot 0 (the entitlements slot, present, with
entitlements bytes supplied and the fill approved) keeps its original
digest. -/
theorem c4_adhoc_requirements_not_emptied :
    resign adhocBundle adhocSigner sampleSignable sampleTop =
      .ok ((resign adhocBundle adhocSigner sampleSignable
        sampleTop).toOption.getD sampleTop) ∧
    (get_blob "CSMAGIC_REQUIREMENTS"
        ((resign adhocBundle adhocSigner sampleSignable
          sampleTop).toOption.getD sampleTop)).map Blob.bytes =
      .ok sampleReqsBlob.bytes ∧
    (get_blob "CSMAGIC_REQUIREMENTS"
        ((resign adhocBundle adhocSigner sampleSignable
          sampleTop).toOption.getD sampleTop)).map Blob.length =
      .ok sampleReqsBlob.length ∧
    (get_blob "CSMAGIC_REQUIREMENTS"
        ((resign adhocBundle adhocSigner sampleSignable
          sampleTop).toOption.getD sampleTop)).map Blob.count =
      .ok (some 0) ∧
    (get_blob "CSMAGIC_REQUIREMENTS"
        ((resign adhocBundle adhocSigner sampleSignable
          sampleTop).toOption.getD sampleTop)).map (fun b =>
        match b.data with
        | .requirementsData n _ => some n
        | _ => none) = .ok (some 2) ∧
    sampleReqsBlob.bytes ≠ entitlementsBuild 0 [] ∧
    has_codedirectory_slot sampleCdData .entitlements = true ∧
    sampleSignable.should_fill .entitlements = true ∧
    (get_blob "CSMAGIC_CODEDIRECTORY"
        ((resign adhocBundle adhocSigner sampleSignable
          sampleTop).toOption.getD sampleTop)).map (fun b =>
        match b.data with
        | .codedir cd => cd.hashes[0]?
        | _ => none) = .ok (some (List.replicate 20 9)) :=
  ⟨rfl, rfl, rfl, rfl, rfl, by decide, rfl, rfl, rfl⟩

/-! ## The declared-length invariant (C8) -/

/-- The header invariant for one top-level blob: the declared length equals
8 plus the raw payload size. -/
def blobOK (b : Blob) : Prop := b.length = (b.bytes.length : Int) + 8

/-- The header invariant for one requirement sub-blob. -/
def reqBlobOK (rb : ReqBlob) : Prop := rb.length = (rb.bytes.length : Int) + 8

/-- Decidability of the per-blob header invariant. -/
instance (b : Blob) : Decidable (blobOK b) := by
  unfold blobOK
  infer_instance

/-- Decidability of the per-requirement-blob header invariant. -/
instance (rb : ReqBlob) : Decidable (reqBlobOK rb) := by
  unfold reqBlobOK
  infer_instance

/-- The header invariant for a blob together with its nested requirement
sub-blobs. -/
def blobDeepOK (b : Blob) : Prop :=
  blobOK b ∧
    match b.data with
    | .requirementsData _ idx => ∀ ri ∈ idx, reqBlobOK ri.blob
    | _ => True

/-- The header invariant over the whole parsed structure. -/
def structOK (c : TopBlob) : Prop :=
  c.length = (c.bytes.length : Int) + 8 ∧
    ∀ bi ∈ c.data.BlobIndex, blobDeepOK bi.blob

/-- The byte size of the optional team-identifier segment of an encoded
code directory. -/
def tidPartLen (cd : CodeDirData) : Nat :=
  if 0x20200 ≤ cd.version then
    (match cd.teamIDOffset with
     | none => 0
     | some _ => 4) +
    (match cd.teamID with
     | none => 1
     | some t => t.length + 1)
  else 0

theorem codeDirectoryBuild_length (cd : CodeDirData) :
    (codeDirectoryBuild cd).length =
      17 + cd.rest.length + cd.ident.length + 1 + tidPartLen cd +
        cd.hashes.flatten.length := by
  by_cases hv : 0x20200 ≤ cd.version <;>
    cases hto : cd.teamIDOffset <;>
    cases ht : cd.teamID <;>
      simp [codeDirectoryBuild, tidPartLen, encodeU32, encodeI32, hv, hto,
        ht] <;>
      omega

theorem flatten_length_of_uniform {l : List Bytes} {k : Nat}
    (h : ∀ x ∈ l, x.length = k) : l.flatten.length = l.length * k := by
  induction l with
  | nil => simp
  | cons a t ih =>
    simp only [List.flatten_cons, List.length_append, List.length_cons,
      h a (by simp), ih (fun x hx => h x (by simp [hx]))]
    ring

/-- Pre-conditions on a blob for length preservation under
`set_codedirectory`: when it is a code directory, its raw payload size is
coherent with its parsed payload, the team-identifier fields are present
(for directory versions that encode them) with the signer's team-id length,
and its digests are sized by its algorithm. -/
def cdPatchSizeOK (s : Signer) (b : Blob) : Prop :=
  ∀ cd, b.data = .codedir cd →
    b.bytes.length = (codeDirectoryBuild cd).length ∧
    (0x20200 ≤ cd.version → ∃ o t, cd.teamIDOffset = some o ∧
      cd.teamID = some t ∧ t.length = s.teamId.length) ∧
    (∀ x ∈ cd.hashes, x.length = hashLen cd.hashType)

theorem mapME_mem {f : BlobIdx → Except PyErr BlobIdx} :
    ∀ {l l' : List BlobIdx}, mapME f l = .ok l' →
    ∀ bi' ∈ l', ∃ bi ∈ l, f bi = .ok bi' := by
  intro l
  induction l with
  | nil =>
    intro l' h bi' hbi'
    simp only [mapME, Except.ok.injEq] at h
    subst h
    simp at hbi'
  | cons a t ih =>
    intro l' h bi' hbi'
    unfold mapME at h
    split at h
    · exact absurd h (by simp)
    · next b heq =>
      split at h
      · exact absurd h (by simp)
      · next bs heq' =>
        simp only [Except.ok.injEq] at h
        subst h
        rcases List.mem_cons.mp hbi' with h' | h'
        · exact ⟨a, by simp, h' ▸ heq⟩
        · obtain ⟨bi, h1, h2⟩ := ih heq' bi' h'
          exact ⟨bi, by simp [h1], h2⟩

theorem assignOffsets_mem (off : Int) (l : List BlobIdx) :
    ∀ bi ∈ assignOffsets off l, ∃ bi0 ∈ l, bi.blob = bi0.blob := by
  induction l generalizing off with
  | nil => simp [assignOffsets]
  | cons a t ih =>
    intro bi hbi
    simp only [assignOffsets, List.mem_cons] at hbi
    rcases hbi with h | h
    · exact ⟨a, by simp, by rw [h]⟩
    · obtain ⟨bi0, h1, h2⟩ := ih _ bi h
      exact ⟨bi0, by simp [h1], h2⟩

theorem filter_of_get_blobs_singleton {m : String} {c : TopBlob} {b : Blob}
    (h : get_blobs m c = [b]) :
    ∃ bi, c.data.BlobIndex.filter (fun bi => bi.blob.magic == m) = [bi] ∧
      bi.blob = b := by
  unfold get_blobs at h
  rcases hf : c.data.BlobIndex.filter (fun bi => bi.blob.magic == m) with
    _ | ⟨x, _ | ⟨y, t⟩⟩ <;> rw [hf] at h <;> simp_all

theorem structOK_updateBlob (m : String) (f : Blob → Blob) (c : TopBlob)
    (hpres : ∀ b, blobDeepOK b → blobDeepOK (f b)) (hst : structOK c) :
    structOK (updateBlob m f c) := by
  obtain ⟨htop, hall⟩ := hst
  refine ⟨htop, ?_⟩
  intro bi hbi
  simp only [updateBlob, List.mem_map] at hbi
  obtain ⟨bi0, hbi0, rfl⟩ := hbi
  by_cases hc : (bi0.blob.magic == m) = true
  · simp only [hc, if_true]
    exact hpres _ (hall bi0 hbi0)
  · simp only [hc, if_false]
    exact hall bi0 hbi0

theorem structOK_split (c : TopBlob) (pre post : List BlobIdx) (e : BlobIdx)
    (b' : Blob) (hsplit : c.data.BlobIndex = pre ++ e :: post)
    (hst : structOK c) (hb' : blobDeepOK b') :
    structOK { c with data := { c.data with
      BlobIndex := pre ++ { e with blob := b' } :: post } } := by
  obtain ⟨htop, hall⟩ := hst
  rw [hsplit] at hall
  refine ⟨htop, ?_⟩
  intro bi hbi
  simp only [List.mem_append, List.mem_cons] at hbi hall
  rcases hbi with h | h | h
  · exact hall bi (Or.inl h)
  · subst h
    exact hb'
  · exact hall bi (Or.inr (Or.inr h))

theorem slotGetHash_length {c : TopBlob} {sB iB : Bytes} {k : SlotKind}
    {ht : Nat} {h : Bytes} (hok : slotGetHash c sB iB k ht = .ok h) :
    h.length = hashLen ht := by
  have key : ∀ k', codeDirectorySlot_get_hash c sB iB k' ht = .ok h →
      h.length = hashLen ht := by
    intro k' hok
    unfold codeDirectorySlot_get_hash at hok
    by_cases h1 : ht = SHA1_HASHTYPE
    · rw [if_pos h1] at hok
      split at hok
      · exact absurd hok (by simp)
      · simp only [Except.ok.injEq] at hok
        subst hok
        simp [sha1, hashLen, h1]
    · by_cases h2 : ht = SHA256_HASHTYPE
      · rw [if_neg h1, if_pos h2] at hok
        split at hok
        · exact absurd hok (by simp)
        · simp only [Except.ok.injEq] at hok
          subst hok
          simp [sha256, hashLen, h1, h2, SHA1_HASHTYPE, SHA256_HASHTYPE]
      · rw [if_neg h1, if_neg h2] at hok
        exact absurd hok (by simp)
  cases k
  all_goals simp only [slotGetHash] at hok
  case application =>
    simp only [Except.ok.injEq] at hok
    subst hok
    simp [hashLen]
  all_goals exact key _ hok

theorem fill_codedirectory_slot_hashlen {c : TopBlob} {sB iB : Bytes}
    {sgn : Signable} {cd cd' : CodeDirData} {k : SlotKind}
    (h : fill_codedirectory_slot c sB iB sgn cd k = .ok cd')
    (hh : ∀ x ∈ cd.hashes, x.length = hashLen cd.hashType) :
    ∀ x ∈ cd'.hashes, x.length = hashLen cd.hashType := by
  unfold fill_codedirectory_slot at h
  split at h
  · split at h
    · exact absurd h (by simp)
    · next d hget =>
      simp only [Except.ok.injEq] at h
      subst h
      intro x hx
      rcases List.mem_or_eq_of_mem_set hx with h' | h'
      · exact hh x h'
      · subst h'
        exact slotGetHash_length hget
  · simp only [Except.ok.injEq] at h
    subst h
    exact hh

theorem fill_codedirectory_slot_hashes_length {c : TopBlob} {sB iB : Bytes}
    {sgn : Signable} {cd cd' : CodeDirData} {k : SlotKind}
    (h : fill_codedirectory_slot c sB iB sgn cd k = .ok cd') :
    cd'.hashes.length = cd.hashes.length := by
  unfold fill_codedirectory_slot at h
  split at h
  · split at h
    · exact absurd h (by simp)
    · simp only [Except.ok.injEq] at h
      subst h
      simp
  · simp only [Except.ok.injEq] at h
    subst h
    rfl

theorem fillSlotsList_hashes {c : TopBlob} {sB iB : Bytes} {sgn : Signable} :
    ∀ {plan : List (SlotKind × Bool)} {cd cd' : CodeDirData},
    fillSlotsList c sB iB sgn plan cd = .ok cd' →
    (∀ x ∈ cd.hashes, x.length = hashLen cd.hashType) →
    cd'.hashes.length = cd.hashes.length ∧
      (∀ x ∈ cd'.hashes, x.length = hashLen cd.hashType) := by
  intro plan
  induction plan with
  | nil =>
    intro cd cd' h hh
    simp only [fillSlotsList, Except.ok.injEq] at h
    subst h
    exact ⟨rfl, hh⟩
  | cons a rest ih =>
    intro cd cd' h hh
    unfold fillSlotsList at h
    rcases a with ⟨k, g⟩
    split at h
    · exact absurd h (by simp)
    · next cd1 heq =>
      have hshape1 : cd1 = { cd with hashes := cd1.hashes } := by
        split at heq
        · exact fill_codedirectory_slot_shape heq
        · simp only [Except.ok.injEq] at heq
          subst heq
          rfl
      have hlen1 : cd1.hashes.length = cd.hashes.length ∧
          ∀ x ∈ cd1.hashes, x.length = hashLen cd.hashType := by
        split at heq
        · exact ⟨fill_codedirectory_slot_hashes_length heq,
            fill_codedirectory_slot_hashlen heq hh⟩
        · simp only [Except.ok.injEq] at heq
          subst heq
          exact ⟨rfl, hh⟩
      have := ih h (by rw [hshape1]; exact hlen1.2)
      rw [hshape1] at this
      exact ⟨this.1.trans hlen1.1, this.2⟩

/-- The patched directory payload produced by the changed-bundle-id branch
of `patchCdBlob`, named for the size lemmas. -/
def patchedCdData (s : Signer) (cd : CodeDirData) (nid : Bytes) :
    CodeDirData :=
  { cd with
    teamID := some s.teamId,
    ident := nid,
    hashOffset := cd.hashOffset +
      ((nid.length : Int) - (cd.ident.length : Int)),
    teamIDOffset := some (match cd.teamIDOffset with
      | none => (nid.length : Int) - (cd.ident.length : Int)
      | some t => t + ((nid.length : Int) - (cd.ident.length : Int))) }

theorem fillPass_preserves {sB iB : Bytes} {s : Signer} {g : Signable}
    {c c1 : TopBlob} (h : fillPass sB iB s g c = .ok c1)
    (hst : structOK c)
    (hcds : ∀ bi ∈ c.data.BlobIndex, cdPatchSizeOK s bi.blob) :
    structOK c1 ∧ ∀ bi ∈ c1.data.BlobIndex, cdPatchSizeOK s bi.blob := by
  unfold fillPass at h
  split at h
  · exact absurd h (by simp)
  · next idx hmap =>
    simp only [Except.ok.injEq] at h
    subst h
    obtain ⟨htop, hall⟩ := hst
    have key : ∀ bi' ∈ idx, blobDeepOK bi'.blob ∧ cdPatchSizeOK s bi'.blob := by
      intro bi' hbi'
      obtain ⟨bi, hbi, hf⟩ := mapME_mem hmap bi' hbi'
      by_cases hc : (bi.blob.magic == "CSMAGIC_CODEDIRECTORY") = true
      · rw [if_pos hc] at hf
        rcases hd : bi.blob.data with _ | cd | _ | _ | _ <;> rw [hd] at hf <;>
          dsimp only at hf
        · exact absurd hf (by simp)
        · split at hf
          · exact absurd hf (by simp)
          · next cd1 hfs =>
            simp only [Except.ok.injEq] at hf
            subst hf
            have hsh := fillSlotsList_shape hfs
            obtain ⟨hcoh, hteam, hhash⟩ := hcds bi hbi cd hd
            have hlens := fillSlotsList_hashes hfs hhash
            have hflat : cd1.hashes.flatten.length =
                cd.hashes.flatten.length := by
              rw [flatten_length_of_uniform hlens.2,
                flatten_length_of_uniform hhash, hlens.1]
            have hbuild : (codeDirectoryBuild cd1).length =
                (codeDirectoryBuild cd).length := by
              rw [codeDirectoryBuild_length, codeDirectoryBuild_length, hsh]
              simp only [tidPartLen]
              rw [hflat]
            constructor
            · exact ⟨(hall bi hbi).1, trivial⟩
            · intro cd' hcd'
              have hcd1 : cd1 = cd' := by
                simpa only [BlobData.codedir.injEq] using hcd'
              subst hcd1
              refine ⟨hcoh.trans hbuild.symm, ?_, ?_⟩
              · rw [hsh]
                exact hteam
              · have hl2 := hlens.2
                rw [hsh]
                exact hl2
        · exact absurd hf (by simp)
        · exact absurd hf (by simp)
        · exact absurd hf (by simp)
      · rw [if_neg hc] at hf
        simp only [Except.ok.injEq] at hf
        subst hf
        exact ⟨hall bi hbi, hcds bi hbi⟩
    exact ⟨⟨htop, fun bi hbi => (key bi hbi).1⟩, fun bi hbi => (key bi hbi).2⟩

theorem patchPass_preserves {s : Signer} {g : Signable} {c1 c' : TopBlob}
    (h : patchPass s g c1 = .ok c') (hst : structOK c1)
    (hcds : ∀ bi ∈ c1.data.BlobIndex, cdPatchSizeOK s bi.blob) :
    structOK c' := by
  unfold patchPass at h
  split at h
  · exact absurd h (by simp)
  · next idx2 hmap =>
    simp only [Except.ok.injEq] at h
    subst h
    refine ⟨hst.1, ?_⟩
    intro bi' hbi'
    obtain ⟨bi, hbi, hf⟩ := mapME_mem hmap bi' hbi'
    by_cases hc : (bi.blob.magic == "CSMAGIC_CODEDIRECTORY") = true
    · rw [if_pos hc] at hf
      rcases hd : bi.blob.data with _ | cd | _ | _ | _ <;> rw [hd] at hf <;>
          dsimp only at hf
      · exact absurd hf (by simp)
      · simp only [Except.ok.injEq] at hf
        subst hf
        have hbOK := (hst.2 bi hbi).1
        obtain ⟨hcoh, hteam, hhash⟩ := hcds bi hbi cd hd
        show blobDeepOK (patchCdBlob s g bi.blob cd)
        rcases hbid : g.changedBundleId with _ | nid
        · have hres : patchCdBlob s g bi.blob cd = { bi.blob with
              data := .codedir { cd with teamID := some s.teamId },
              bytes := codeDirectoryBuild
                { cd with teamID := some s.teamId } } := by
            unfold patchCdBlob
            rw [hbid]
          rw [hres]
          have htid : tidPartLen { cd with teamID := some s.teamId } =
              tidPartLen cd := by
            unfold tidPartLen
            by_cases hv : 0x20200 ≤ cd.version
            · obtain ⟨o, t, ho, ht, hl⟩ := hteam hv
              simp [hv, ho, ht, hl]
            · simp [hv]
          refine ⟨?_, trivial⟩
          show bi.blob.length = ((codeDirectoryBuild
            { cd with teamID := some s.teamId }).length : Int) + 8
          rw [blobOK] at hbOK
          rw [codeDirectoryBuild_length, htid]
          rw [codeDirectoryBuild_length] at hcoh
          dsimp only
          omega
        · have hres : patchCdBlob s g bi.blob cd = { bi.blob with
              data := .codedir (patchedCdData s cd nid),
              bytes := codeDirectoryBuild (patchedCdData s cd nid),
              length := bi.blob.length +
                ((nid.length : Int) - (cd.ident.length : Int)) } := by
            unfold patchCdBlob patchedCdData
            rw [hbid]
          rw [hres]
          have htid : tidPartLen (patchedCdData s cd nid) =
              tidPartLen cd := by
            unfold tidPartLen patchedCdData
            by_cases hv : 0x20200 ≤ cd.version
            · obtain ⟨o, t, ho, ht, hl⟩ := hteam hv
              simp [hv, ho, ht, hl]
            · simp [hv]
          refine ⟨?_, trivial⟩
          show bi.blob.length +
              ((nid.length : Int) - (cd.ident.length : Int)) =
            ((codeDirectoryBuild (patchedCdData s cd nid)).length : Int) + 8
          rw [blobOK] at hbOK
          rw [codeDirectoryBuild_length, htid]
          rw [codeDirectoryBuild_length] at hcoh
          have hid : (patchedCdData s cd nid).ident = nid := rfl
          have hrest : (patchedCdData s cd nid).rest = cd.rest := rfl
          have hhs : (patchedCdData s cd nid).hashes = cd.hashes := rfl
          rw [hid, hrest, hhs]
          omega
      · exact absurd hf (by simp)
      · exact absurd hf (by simp)
      · exact absurd hf (by simp)
    · rw [if_neg hc] at hf
      simp only [Except.ok.injEq] at hf
      subst hf
      exact hst.2 bi hbi


/-- C8 (amended): every blob's declared length equals 8 plus its encoded
payload length, and the mutating operations preserve this invariant for every
blob — unconditionally for `set_entitlements`, `set_requirements`,
`set_signature` and `update_offsets`, and for `set_codedirectory` provided
each code directory's parsed payload is size-coherent with its raw bytes, its
digests are sized by its algorithm, and (for directory versions that encode
it) its recorded team identifier has the same length as the signer's team
identifier — the condition whose violation the counterexample exhibits. -/
theorem c8_length_invariant :
    (∀ (e : Bytes) (c c' : TopBlob), set_entitlements e c = .ok c' →
      structOK c → structOK c') ∧
    (∀ (s : Signer) (g : Signable) (c c' : TopBlob),
      set_requirements s g c = .ok c' → structOK c → structOK c') ∧
    (∀ (s : Signer) (c c' : TopBlob), set_signature s c = .ok c' →
      structOK c → structOK c') ∧
    (∀ (c c' : TopBlob), update_offsets c = .ok c' →
      structOK c → structOK c') ∧
    (∀ (sB iB : Bytes) (s : Signer) (g : Signable) (c c' : TopBlob),
      set_codedirectory sB iB s g c = .ok c' → structOK c →
      (∀ bi ∈ c.data.BlobIndex, cdPatchSizeOK s bi.blob) →
      structOK c') := by
  refine ⟨?_, ?_, ?_, ?_, ?_⟩
  · intro e c c' hok hst
    unfold set_entitlements at hok
    split at hok
    · simp only [Except.ok.injEq] at hok
      subst hok
      exact hst
    · exact absurd hok (by simp)
    · simp only [Except.ok.injEq] at hok
      subst hok
      exact structOK_updateBlob _ _ c (fun b hb => ⟨rfl, hb.2⟩) hst
  · intro s g c c' hok hst
    unfold set_requirements at hok
    split at hok
    · exact absurd hok (by simp)
    · next reqb hgb =>
      have hmem : blobDeepOK reqb := by
        obtain ⟨bi, hfil, hbeq⟩ :=
          filter_of_get_blobs_singleton (get_blobs_of_get_blob_ok hgb)
        have : bi ∈ c.data.BlobIndex :=
          List.mem_of_mem_filter (hfil ▸ List.mem_singleton_self bi)
        exact hbeq ▸ hst.2 bi this
      split at hok
      · simp only [Except.ok.injEq] at hok
        subst hok
        exact structOK_updateBlob _ _ c (fun b hb => ⟨hb.1, hb.2⟩) hst
      · split at hok
        · next rcount rindex heq =>
          dsimp only at hok
          split at hok
          · exact absurd hok (by simp)
          · next rhead rtail =>
            have hreq : ∀ ri ∈ rhead :: rtail, reqBlobOK ri.blob := by
              have hm2 := hmem.2
              rw [heq] at hm2
              exact hm2
            split at hok
            · simp only [Except.ok.injEq] at hok
              subst hok
              refine structOK_updateBlob _ _ c (fun b hb => ⟨hb.1, ?_⟩) hst
              intro ri hri
              rcases List.mem_cons.mp hri with h | h
              · subst h
                exact hreq rhead (by simp)
              · exact hreq ri (by simp [h])
            · simp only [Except.ok.injEq] at hok
              subst hok
              refine structOK_updateBlob _ _ c (fun b hb => ⟨rfl, ?_⟩) hst
              intro ri hri
              rcases List.mem_cons.mp hri with h | h
              · subst h
                exact rfl
              · obtain ⟨ri0', hmem', rfl⟩ := List.mem_map.mp h
                exact hreq ri0' (by simp [hmem'])
        · exact absurd hok (by simp)
  · intro s c c' hok hst
    unfold set_signature at hok
    split at hok
    · exact absurd hok (by simp)
    · simp only [Except.ok.injEq] at hok
      subst hok
      exact structOK_updateBlob _ _ c (fun b hb => ⟨rfl, trivial⟩) hst
  · intro c c' hok hst
    unfold update_offsets at hok
    split at hok
    · exact absurd hok (by simp)
    · simp only [Except.ok.injEq] at hok
      subst hok
      refine ⟨rfl, ?_⟩
      intro bi hbi
      obtain ⟨bi0, h1, h2⟩ := assignOffsets_mem _ _ bi hbi
      rw [blobDeepOK, h2]
      exact hst.2 bi0 h1
  · intro sB iB s g c c' hok hst hcds
    unfold set_codedirectory at hok
    split at hok
    · exact absurd hok (by simp)
    · next c1 hfill =>
      obtain ⟨hst1, hcds1⟩ := fillPass_preserves hfill hst hcds
      exact patchPass_preserves hok hst1 hcds1

/-- A signature holding only the sample code directory, fully coherent. -/
def cdOnlyTop : TopBlob :=
  { magic := "CSMAGIC_EMBEDDED_SIGNATURE", length := 8,
    data := { count := 1, BlobIndex := [⟨0, 20, sampleCdBlob⟩] },
    bytes := [] }

/-- A signer whose team identifier (5 bytes) is longer than the sample
directory's recorded one (2 bytes). -/
def longTeamSigner : Signer :=
  { adhoc := false, commonName := [78], teamId := [84, 69, 65, 77, 49],
    sign := fun _ _ => [1] }

/-- A signable with no bundle-identifier change, approving no slot fills. -/
def noBidSignable : Signable :=
  { changedBundleId := none, should_fill := fun _ => false }

set_option maxRecDepth 8192 in
/-- Counterexample to C8 as stated: on a fully coherent input,
`set_codedirectory` with a replacement team identifier of a different length
(2 bytes → 5 bytes) leaves the code directory's declared length out of sync
with its re-encoded payload: the length-equals-payload-plus-8 check on the
rewritten directory evaluates to false. -/
theorem c8_teamid_length_counterexample :
    structOK cdOnlyTop ∧
    set_codedirectory [] [] longTeamSigner noBidSignable cdOnlyTop =
      .ok ((set_codedirectory [] [] longTeamSigner noBidSignable
        cdOnlyTop).toOption.getD cdOnlyTop) ∧
    (get_blob "CSMAGIC_CODEDIRECTORY"
        ((set_codedirectory [] [] longTeamSigner noBidSignable
          cdOnlyTop).toOption.getD cdOnlyTop)).map
      (fun b => decide (b.length = (b.bytes.length : Int) + 8)) =
      .ok false := by
  refine ⟨⟨by decide, ?_⟩, rfl, rfl⟩
  intro bi hbi
  simp only [cdOnlyTop, List.mem_singleton] at hbi
  subst hbi
  exact ⟨by decide, trivial⟩

set_option maxRecDepth 8192 in
/-- The sample signature satisfies the declared-length invariant. -/
theorem structOK_sampleTop : structOK sampleTop := by
  refine ⟨by decide, ?_⟩
  intro bi hbi
  fin_cases hbi
  · exact ⟨by decide, trivial⟩
  · refine ⟨by decide, ?_⟩
    intro ri hri
    fin_cases hri <;> exact (by decide)
  · exact ⟨by decide, trivial⟩
  · exact ⟨by decide, trivial⟩

set_option maxRecDepth 8192 in
/-- The sample signature's directories satisfy the size conditions for the
sample signer (whose team identifier has the recorded one's length). -/
theorem cdsOK_sampleTop :
    ∀ bi ∈ sampleTop.data.BlobIndex, cdPatchSizeOK sampleSigner bi.blob := by
  intro bi hbi
  fin_cases hbi
  · intro cd hcd
    have hc : sampleCdData = cd := by
      simpa [sampleCdBlob] using hcd
    subst hc
    refine ⟨by decide, fun _ => ⟨40, [84, 77], rfl, rfl, by decide⟩, ?_⟩
    intro x hx
    fin_cases hx <;> exact (by decide)
  · intro cd hcd
    exact absurd hcd (by simp [sampleReqsBlob])
  · intro cd hcd
    exact absurd hcd (by simp [sampleEntBlob])
  · intro cd hcd
    exact absurd hcd (by simp [sampleWrapBlob])

set_option maxRecDepth 8192 in
/-- Witness for the amended C8: the invariant survives a concrete
`set_entitlements` and a concrete `set_codedirectory` (same-length team
identifier) on the sample signature. -/
theorem c8_length_invariant_witness :
    structOK ((set_entitlements [61, 62] sampleTop).toOption.getD
      sampleTop) ∧
    structOK ((set_codedirectory [1] [2] sampleSigner sampleSignable
      sampleTop).toOption.getD sampleTop) :=
  ⟨c8_length_invariant.1 [61, 62] sampleTop _ rfl structOK_sampleTop,
   c8_length_invariant.2.2.2.2 [1] [2] sampleSigner sampleSignable
     sampleTop _ rfl structOK_sampleTop cdsOK_sampleTop⟩

end Isign
